import Mathlib

/-!
Verification of the standup report generator (`standup.py`).

The Python source is shallowly embedded below.  Strings are modelled by
`String`, but every operation on them is defined by structural recursion over
the underlying `List Char` (code points), so that all definitions are
executable and all predicates decidable by the kernel.  Python's string
comparison, case mapping, slicing and containment are reimplemented on
`List Char`; Python `date` objects are modelled by their proleptic-Gregorian
ordinal as an `Int` (as returned by `date.toordinal`), for which
`weekday d = (d + 6) % 7` with Monday = 0, matching `date.weekday()`.
Python dictionaries are modelled as association lists in insertion order,
Python sets as duplicate-free lists (the source only ever iterates sets
after sorting them, so the intermediate order is irrelevant).
-/

namespace Standup

/-! ## String primitives (Python semantics, on code points) -/

/-- Python lexicographic `<` on strings, by code point (`ord`). -/
def charsLt : List Char → List Char → Bool
  | [], [] => false
  | [], _ :: _ => true
  | _ :: _, [] => false
  | a :: as, b :: bs => decide (a < b) || (a == b && charsLt as bs)

/-- Python `s <= t` on strings. -/
def strLe (s t : String) : Bool := !(charsLt t.data s.data)

/-- Python `s < t` on strings. -/
def strLt (s t : String) : Bool := charsLt s.data t.data

/-- Python `s.lower()` (ASCII-adequate). -/
def strLower (s : String) : String := ⟨s.data.map Char.toLower⟩

/-- Python `s.upper()` (ASCII-adequate). -/
def strUpper (s : String) : String := ⟨s.data.map Char.toUpper⟩

/-- Python `s[:n]` for `n ≥ 0`. -/
def strTake (s : String) (n : Nat) : String := ⟨s.data.take n⟩

/-- Python `needle in hay` (substring containment) on code-point lists. -/
def subMem (needle hay : List Char) : Bool :=
  match hay with
  | [] => needle.isEmpty
  | _ :: t => needle.isPrefixOf hay || subMem needle t

/-- Python `needle in hay` substring test on strings. -/
def strContains (hay needle : String) : Bool := subMem needle.data hay.data

/-- Python `str.isspace` on one character, for the default `strip`. -/
def isSpaceChar (c : Char) : Bool :=
  c == ' ' || c == '\t' || c == '\n' || c == '\r' || c == '\x0b' || c == '\x0c'

/-- Python `s.strip()` (default whitespace strip on both ends). -/
def strStrip (s : String) : String :=
  ⟨((s.data.dropWhile isSpaceChar).reverse.dropWhile isSpaceChar).reverse⟩

/-- Python `s.lstrip(cs)`: drop leading characters belonging to `cs`. -/
def strLstrip (cs : List Char) (s : String) : String :=
  ⟨s.data.dropWhile (fun c => cs.contains c)⟩

/-- Python `s.strip(cs)` for an explicit character set (both ends). -/
def strStripSet (cs : List Char) (s : String) : String :=
  ⟨((s.data.dropWhile (fun c => cs.contains c)).reverse.dropWhile
      (fun c => cs.contains c)).reverse⟩

/-- First line of a message, as `message.splitlines()[0]` on a message
that uses `\n` separators (the only case exercised here). -/
def firstLine (s : String) : String := ⟨s.data.takeWhile (fun c => c ≠ '\n')⟩

/-- Python `", ".join`-style interposition of a separator. -/
def joinSep (sep : String) : List String → String
  | [] => ""
  | [x] => x
  | x :: y :: t => x ++ sep ++ joinSep sep (y :: t)

/-! ## Association lists (Python `dict` in insertion order) and sorting -/

/-- Lookup in an insertion-ordered association list (`d.get(k)` / `k in d`). -/
def alGet {α : Type} : List (String × α) → String → Option α
  | [], _ => none
  | (k, v) :: t, key => if k = key then some v else alGet t key

/-- Membership of a key (`k in d`). -/
def alHas {α : Type} (l : List (String × α)) (key : String) : Bool :=
  (alGet l key).isSome

/-- Python `d[k] = v`: overwrite in place if the key exists, else append. -/
def alSet {α : Type} : List (String × α) → String → α → List (String × α)
  | [], key, v => [(key, v)]
  | (k, w) :: t, key, v =>
      if k = key then (k, v) :: t else (k, w) :: alSet t key v

/-- Python `d.pop(k, None)`: remove the entry, returning value and rest. -/
def alPop {α : Type} : List (String × α) → String → Option α × List (String × α)
  | [], _ => (none, [])
  | (k, v) :: t, key =>
      if k = key then (some v, t)
      else
        let r := alPop t key
        (r.1, (k, v) :: r.2)

/-- Set-insertion into a duplicate-free list (Python `set.add`). -/
def setAdd (l : List String) (x : String) : List String :=
  if l.contains x then l else l ++ [x]

/-- Insertion into a string list sorted by the Python order. -/
def sortedInsert (x : String) : List String → List String
  | [] => [x]
  | y :: t => if strLe x y then x :: y :: t else y :: sortedInsert x t

/-- Python `sorted` on a list of strings. -/
def sortStrs (l : List String) : List String := l.foldr sortedInsert []

/-- Insertion into an association list sorted by key (keys are distinct, so
Python's tuple comparison on `dict.items()` only ever inspects the key). -/
def sortedInsertKey {α : Type} (p : String × α) :
    List (String × α) → List (String × α)
  | [] => [p]
  | q :: t => if strLe p.1 q.1 then p :: q :: t else q :: sortedInsertKey p t

/-- Python `sorted(d.items())` for a dict with distinct keys. -/
def sortByKey {α : Type} (l : List (String × α)) : List (String × α) :=
  l.foldr sortedInsertKey []

/-! ## Date-Window Resolver (`prev_workday`, `workday_range`, `main`) -/

/-- Python `date.weekday()` on the ordinal-day model: Monday = 0. -/
def weekday (d : Int) : Int := (d + 6) % 7

/-- Embedding of `prev_workday` (standup.py lines 163-172): Monday goes back
three days to Friday, every other day goes back one day. -/
def prev_workday (ref : Int) : Int :=
  ref - (if weekday ref = 0 then 3 else 1)

/-- Embedding of `workday_range` (standup.py lines 175-184): when `today` is
a Monday the window runs from `workday` to yesterday (Sunday), otherwise it
is the single day `workday`. -/
def workday_range (workday today : Int) : Int × Int :=
  if weekday today = 0 then (workday, today - 1) else (workday, workday)

/-- Embedding of the window computation in `main` (standup.py lines 553-555):
`workday = args.date if args.date else prev_workday(today)` followed by
`workday_range(workday, today if not args.date else workday)`. -/
def resolveWindow (today : Int) (override : Option Int) : Int × Int :=
  let workday : Int := match override with | some d => d | none => prev_workday today
  workday_range workday (match override with | some _ => workday | none => today)

/-! ## Issue classification (`main`, standup.py lines 591-623)

One record per issue, holding the values the loop body extracts from the raw
JSON before classifying: the built identifier and URL, the title, the raw
`updated_at` string (empty when the field is missing, as `issue.get` defaults
to `""` would), the state's `group` and `name` from the per-project state
table, and the label names. -/

structure IssueRec where
  identifier : String
  title : String
  url : String
  updated_at : String
  state_group : String
  state_name : String
  labels : List String
deriving DecidableEq, Repr

/-- Primary classification buckets of the per-issue `if` chain. -/
inductive Bucket
  | done
  | review
  | blocked
  | backlog
  | active
deriving DecidableEq, Repr

/-- Embedding of the per-issue classification chain (standup.py lines
598-623): backlog/unstarted issues are bucketed unconditionally; all others
are dropped unless `date_from.isoformat() <= updated_at[:10] <=
date_to.isoformat()`, and then routed by completed group, "review" in the
lowered state name, a "blocked" label, or the started group, in that order. -/
def classifyIssue (fromIso toIso : String) (iss : IssueRec) : Option Bucket :=
  let updated_date := if iss.updated_at = "" then "" else strTake iss.updated_at 10
  let updated_in_range := strLe fromIso updated_date && strLe updated_date toIso
  let state_name := strLower iss.state_name
  let is_blocked := (iss.labels.map strLower).contains "blocked"
  if iss.state_group = "backlog" ∨ iss.state_group = "unstarted" then some .backlog
  else if !updated_in_range then none
  else if iss.state_group = "completed" then some .done
  else if strContains state_name "review" then some .review
  else if is_blocked then some .blocked
  else if iss.state_group = "started" then some .active
  else none

/-- Accumulated tracker-side state of the project loop in `main`:
the four issue lists, the `plane_active` dict and the
`all_issues_lookup` dict. -/
structure TrackerBuckets where
  done_issues : List (String × String × String)
  review_issues : List (String × String × String)
  blocked_issues : List (String × String × String)
  backlog_issues : List (String × String × String)
  plane_active : List (String × String × String)
  all_issues_lookup : List (String × String × String)
deriving DecidableEq, Repr

/-- Embedding of one iteration of the issue loop (standup.py lines 591-623):
record the issue in `all_issues_lookup`, then classify and append / store. -/
def classifyStep (fromIso toIso : String) (st : TrackerBuckets) (iss : IssueRec) :
    TrackerBuckets :=
  let st := { st with
    all_issues_lookup := alSet st.all_issues_lookup iss.identifier (iss.title, iss.url) }
  match classifyIssue fromIso toIso iss with
  | some .backlog =>
      { st with backlog_issues := st.backlog_issues ++ [(iss.identifier, iss.title, iss.url)] }
  | some .done =>
      { st with done_issues := st.done_issues ++ [(iss.identifier, iss.title, iss.url)] }
  | some .review =>
      { st with review_issues := st.review_issues ++ [(iss.identifier, iss.title, iss.url)] }
  | some .blocked =>
      { st with blocked_issues := st.blocked_issues ++ [(iss.identifier, iss.title, iss.url)] }
  | some .active =>
      { st with plane_active := alSet st.plane_active iss.identifier (iss.title, iss.url) }
  | none => st

/-- Embedding of the whole issue loop over the already-fetched issues. -/
def classifyAll (fromIso toIso : String) (issues : List IssueRec) : TrackerBuckets :=
  issues.foldl (classifyStep fromIso toIso) ⟨[], [], [], [], [], []⟩

/-! ## Source-Control Client (`get_github_commits`, standup.py lines 220-260)

A commit is the triple of fields the scanner reads from the GitHub API
object.  The per-repository commit listings are inputs here: GitHub applies
the author and `since`/`until` window filter server-side, so each element of
`repos` is the (already windowed) listing of one repository, or `Except.error`
when that repository's listing raises. -/

structure Commit where
  sha : String
  message : String
  html_url : String
deriving DecidableEq, Repr

/-- Word characters for the regex `\b` boundary (`\w`, ASCII-adequate). -/
def isWordChar (c : Char) : Bool := c.isAlphanum || c == '_'

/-- Attempt to match `DATA-\d+` case-insensitively at the head of `cs`,
requiring a word boundary after the digits.  Returns the matched text in its
original case together with the remainder. -/
def ticketHead (cs : List Char) : Option (List Char × List Char) :=
  match cs with
  | c1 :: c2 :: c3 :: c4 :: c5 :: rest =>
      if c1.toLower == 'd' && c2.toLower == 'a' && c3.toLower == 't'
          && c4.toLower == 'a' && c5 == '-' then
        let digits := rest.takeWhile Char.isDigit
        let rest2 := rest.dropWhile Char.isDigit
        if digits.isEmpty then none
        else
          match rest2 with
          | [] => some (c1 :: c2 :: c3 :: c4 :: c5 :: digits, [])
          | d :: _ =>
              if isWordChar d then none
              else some (c1 :: c2 :: c3 :: c4 :: c5 :: digits, rest2)
      else none
  | _ => none

/-- Left-to-right scan implementing `re.findall` for `TICKET_RE`, the pattern
`\b(DATA-\d+)\b` with `re.IGNORECASE` (standup.py line 205): at each position
not preceded by a word character, try `ticketHead`; on success skip past the
match, otherwise advance one character.  `fuel` bounds the recursion and is
instantiated with the input length; at least one character is consumed per
step. -/
def scanTicketsAux : Nat → Bool → List Char → List (List Char)
  | 0, _, _ => []
  | _ + 1, _, [] => []
  | fuel + 1, prevWord, c :: cs =>
      if prevWord then scanTicketsAux fuel (isWordChar c) cs
      else
        match ticketHead (c :: cs) with
        | some (t, rest) => t :: scanTicketsAux fuel true rest
        | none => scanTicketsAux fuel (isWordChar c) cs

/-- Python `TICKET_RE.findall(s)`. -/
def findTickets (s : String) : List String :=
  (scanTicketsAux s.data.length false s.data).map (fun cs => (⟨cs⟩ : String))

/-- Python `TICKET_RE.sub("", s)`: delete every ticket match, keep the rest. -/
def stripTicketsAux : Nat → Bool → List Char → List Char
  | 0, _, rest => rest
  | _ + 1, _, [] => []
  | fuel + 1, prevWord, c :: cs =>
      if prevWord then c :: stripTicketsAux fuel (isWordChar c) cs
      else
        match ticketHead (c :: cs) with
        | some (_, rest) => stripTicketsAux fuel true rest
        | none => c :: stripTicketsAux fuel (isWordChar c) cs

/-- Python `TICKET_RE.sub("", s)` on strings. -/
def stripTickets (s : String) : String := ⟨stripTicketsAux s.data.length false s.data⟩

/-- Python `MERGE_RE.match(msg)` for `^Merge ` with `re.IGNORECASE`
(standup.py line 206). -/
def isMergeMsg (msg : String) : Bool := strLower (strTake msg 6) == "merge "

/-- Intermediate scan state: the `by_ticket` dict of commit-line sets and the
`orphans` set (standup.py lines 235-236). -/
structure ScanState where
  by_ticket : List (String × List String)
  orphans : List String
deriving DecidableEq, Repr

/-- Embedding of the inner `process(commit)` closure (standup.py lines
238-248): take the first message line, drop merge commits, render the short
line, and file it under every matched ticket (uppercased) or as an orphan. -/
def processCommit (st : ScanState) (c : Commit) : ScanState :=
  let msg := firstLine c.message
  if isMergeMsg msg then st
  else
    let short := "`" ++ strTake c.sha 7 ++ "` " ++ msg ++ " (" ++ c.html_url ++ ")"
    let tickets := findTickets msg
    if tickets.isEmpty then { st with orphans := setAdd st.orphans short }
    else
      { st with
        by_ticket := tickets.foldl (fun bt t =>
          match alGet bt (strUpper t) with
          | some s => alSet bt (strUpper t) (setAdd s short)
          | none => bt ++ [(strUpper t, [short])]) st.by_ticket }

/-- Embedding of the per-repository loop body (standup.py lines 253-258):
process every commit of the repository, and swallow the whole repository when
its listing raised (`except Exception: pass`). -/
def repoStep (st : ScanState) (r : Except Unit (List Commit)) : ScanState :=
  match r with
  | .error _ => st
  | .ok cs => cs.foldl processCommit st

/-- Embedding of `get_github_commits` (standup.py lines 220-260): with no
token, empty results; otherwise fold over the repositories, skipping any whose
listing raised, process every commit, and return the ticket map sorted by key
with each commit-line set sorted, plus the sorted orphan set. -/
def get_github_commits (token : String) (repos : List (Except Unit (List Commit))) :
    List (String × List String) × List String :=
  if token = "" then ([], [])
  else
    let st := repos.foldl repoStep ⟨[], []⟩
    ((sortByKey st.by_ticket).map (fun p => (p.1, sortStrs p.2)), sortStrs st.orphans)

/-- The sublist of repositories whose commit listing succeeded (how the
specification phrases "the scan continues with the remaining repositories"). -/
def keepOk (repos : List (Except Unit (List Commit))) :
    List (Except Unit (List Commit)) :=
  repos.filterMap (fun r =>
    match r with
    | .ok cs => some (Except.ok cs)
    | .error _ => none)

/-! ## Ticket Extractor (`title_from_commits`, standup.py lines 143-156) -/

/-- Hash characters of the `COMMIT_RE` group `[0-9a-f]+`. -/
def isHexLower (c : Char) : Bool := c.isDigit || (decide ('a' ≤ c) && decide (c ≤ 'f'))

/-- Match `https?://\S+` against the whole of `cs`. -/
def isHttpUrl (cs : List Char) : Bool :=
  let tail :=
    if "https://".data.isPrefixOf cs then some (cs.drop 8)
    else if "http://".data.isPrefixOf cs then some (cs.drop 7)
    else none
  match tail with
  | some t => !t.isEmpty && t.all (fun c => !isSpaceChar c)
  | none => false

/-- All decompositions `core = msg ++ " (" ++ url-part`, listed left to right
(so in order of increasing `msg` length); `seen` holds the consumed part
reversed. -/
def msgUrlSplits : List Char → List Char → List (List Char × List Char)
  | _, [] => []
  | seen, ' ' :: '(' :: rest =>
      (seen.reverse, rest) :: msgUrlSplits ('(' :: ' ' :: seen) rest
  | seen, c :: rest => msgUrlSplits (c :: seen) rest

/-- Embedding of `COMMIT_RE.match(line)` for the anchored pattern
``^(`[0-9a-f]+`) (.+) \((https?://\S+)\)$`` (standup.py line 207), returning
the three groups.  The greedy `(.+)` makes the match split at the last
occurrence of `" ("` whose tail parses as a parenthesised URL. -/
def commitReMatch (line : String) : Option (String × String × String) :=
  match line.data with
  | '`' :: rest =>
      let hex := rest.takeWhile isHexLower
      let rest2 := rest.dropWhile isHexLower
      if hex.isEmpty then none
      else
        match rest2 with
        | '`' :: ' ' :: body =>
            match body.getLast? with
            | some ')' =>
                let core := body.dropLast
                let ok := (msgUrlSplits [] core).filter (fun p =>
                  !p.1.isEmpty && p.1.all (fun c => c ≠ '\n') && isHttpUrl p.2)
                match ok.getLast? with
                | some (msg, url) =>
                    some ("`" ++ (⟨hex⟩ : String) ++ "`", (⟨msg⟩ : String), (⟨url⟩ : String))
                | none => none
            | _ => none
        | _ => none
  | _ => none

/-- Case-insensitive literal match of `pat` at the head of `cs`, returning the
remainder. -/
def matchCi : List Char → List Char → Option (List Char)
  | [], rest => some rest
  | _ :: _, [] => none
  | p :: ps, c :: rest => if p.toLower == c.toLower then matchCi ps rest else none

/-- Python `prefix_re.sub("", msg)` for the anchored pattern
`^\s*{ticket}\s*[-–—:]\s*` with `re.IGNORECASE` (standup.py line 148): if the
message starts with optional whitespace, the ticket (case-insensitive),
optional whitespace, one separator and optional whitespace, drop that; else
return the message unchanged. -/
def ticketSepSub (ticket : String) (msg : String) : String :=
  let s1 := msg.data.dropWhile isSpaceChar
  match matchCi ticket.data s1 with
  | none => msg
  | some s2 =>
      let s3 := s2.dropWhile isSpaceChar
      match s3 with
      | c :: s4 =>
          if ['-', '–', '—', ':'].contains c then ⟨s4.dropWhile isSpaceChar⟩ else msg
      | [] => msg

/-- Embedding of `title_from_commits` (standup.py lines 143-156): first
commit line whose message, after stripping the ticket-plus-separator head and
whitespace, is non-empty; `""` when none is. -/
def title_from_commits (ticket : String) (commit_lines : List String) : String :=
  match commit_lines with
  | [] => ""
  | line :: rest =>
      let msg :=
        match commitReMatch line with
        | some (_, m, _) => m
        | none => line
      let cleaned := strStrip (ticketSepSub ticket msg)
      if cleaned ≠ "" then cleaned else title_from_commits ticket rest

/-- Embedding of `build_browse_url` (standup.py lines 138-140), with the
workspace slug passed explicitly instead of read from the environment. -/
def build_browse_url (slug ticket : String) : String :=
  "https://app.plane.so/" ++ slug ++ "/browse/" ++ ticket ++ "/"

/-! ## Reconciler (merge step of `main`, standup.py lines 629-645) -/

/-- One `worked_on` entry: `{**info, "commits": commit_lines}`. -/
structure WorkInfo where
  title : String
  url : String
  commits : List String
deriving DecidableEq, Repr

/-- State threaded through the merge step: the shrinking `plane_active` dict
and the growing `worked_on` and `done_commits` dicts. -/
structure MergeState where
  plane_active : List (String × String × String)
  worked_on : List (String × WorkInfo)
  done_commits : List (String × List String)
deriving DecidableEq, Repr

/-- The `done_ids` set of `main` (standup.py line 630): identifiers of done
and in-review issues (used only through membership). -/
def doneIds (done review : List (String × String × String)) : List String :=
  done.map (fun p => p.1) ++ review.map (fun p => p.1)

/-- Embedding of one iteration of the ticket loop (standup.py lines 633-641):
done/in-review tickets go to `done_commits`; any other ticket becomes a
`worked_on` entry whose info is popped from `plane_active`, else found in
`all_issues_lookup`, else synthesized from the commits and the browse URL. -/
def mergeStep (slug : String) (done_ids : List String)
    (lookup : List (String × String × String)) (st : MergeState)
    (p : String × List String) : MergeState :=
  if done_ids.contains p.1 then
    { st with done_commits := alSet st.done_commits p.1 p.2 }
  else
    let popped := alPop st.plane_active p.1
    let info : String × String :=
      match popped.1 with
      | some i => i
      | none =>
          match alGet lookup p.1 with
          | some i => i
          | none => (title_from_commits p.1 p.2, build_browse_url slug p.1)
    { st with
      plane_active := popped.2,
      worked_on := alSet st.worked_on p.1 ⟨info.1, info.2, p.2⟩ }

/-- Embedding of the whole merge step (standup.py lines 629-645): fold the
ticket loop over the commit map, then add every remaining `plane_active`
issue not among `done_ids` as a `worked_on` entry with no commits. -/
def reconcile (slug : String) (commits_by_ticket : List (String × List String))
    (done_ids : List String) (plane_active lookup : List (String × String × String)) :
    MergeState :=
  let st1 := commits_by_ticket.foldl (mergeStep slug done_ids lookup)
    ⟨plane_active, [], []⟩
  { st1 with
    worked_on := st1.plane_active.foldl (fun w q =>
      if done_ids.contains q.1 then w else alSet w q.1 ⟨q.2.1, q.2.2, []⟩)
      st1.worked_on }

/-- Composition of the pipeline stages of `main` up to the merge step, used to
evaluate whole-run behaviour on concrete inputs. -/
def runPipeline (slug fromIso toIso : String) (issues : List IssueRec)
    (token : String) (repos : List (Except Unit (List Commit))) :
    TrackerBuckets × MergeState × List (String × List String) × List String :=
  let tb := classifyAll fromIso toIso issues
  let scanned := get_github_commits token repos
  let ms := reconcile slug scanned.1 (doneIds tb.done_issues tb.review_issues)
    tb.plane_active tb.all_issues_lookup
  (tb, ms, scanned.1, scanned.2)

/-! ## Report Renderer (`build_report`, `build_slack_report`,
standup.py lines 209-217, 267-378, 405-487)

Both renderers build a list of lines and join them with newlines.  The
embeddings below produce the final physical lines of the joined report: a
source element carrying an embedded `"\n"` (such as `f"\n{SEC_REVIEW}"`)
appears as a blank line followed by the section header, exactly as in the
joined output. -/

def SEC_DONE : String := ":white_check_mark: Done:"
def SEC_REVIEW : String := ":eyes: Moved to review:"
def SEC_IN_PROGRESS : String := ":arrows_counterclockwise: In progress / planned (with ETA):"
def SEC_ORPHAN_COMMITS : String := ":ghost: Commits without ticket:"
def SEC_BLOCKED : String := ":no_entry: Blocked:"
def SEC_NEED_TASKS : String := ":jigsaw: Need tasks (Optional):"
def SEC_BACKLOG : String := ":card_index: Backlog (assigned, not started):"
def SEC_UNKNOWN_TICKETS : String := ":spiral_note_pad: Commits linked to unknown ticket:"

/-- Embedding of `_slack_commit_line` (standup.py lines 267-275): parse a
rendered commit string into `(sha, cleaned message, url)`. -/
def _slack_commit_line (c : String) : Option (String × String × String) :=
  match commitReMatch c with
  | none => none
  | some (g1, g2, g3) =>
      let sha := strStripSet ['`'] g1
      let raw_msg := strStrip (strLstrip [' ', '-', '–', '—'] (stripTickets g2))
      some (sha, raw_msg, g3)

/-- Embedding of `_render_commits_slack` (standup.py lines 278-291): group
parsed commits by cleaned message in first-seen order and render one indented
line per distinct message with all its linked hashes. -/
def _render_commits_slack (commits : List String) : List String :=
  let by_msg := commits.foldl (fun bm c =>
    match _slack_commit_line c with
    | none => bm
    | some (sha, raw_msg, commit_url) =>
        match alGet bm raw_msg with
        | some l => alSet bm raw_msg (l ++ [(sha, commit_url)])
        | none => bm ++ [(raw_msg, [(sha, commit_url)])]) []
  by_msg.map (fun p =>
    "  ↳ " ++ p.1 ++ " ("
      ++ joinSep ", " (p.2.map (fun q => "<" ++ q.2 ++ "|" ++ q.1 ++ ">")) ++ ")")

/-- Embedding of `_render_commits_plain` (standup.py lines 405-423): the same
grouping, rendered without links (or with bare URLs when requested). -/
def _render_commits_plain (commits : List String) (add_links : Bool) : List String :=
  let by_msg := commits.foldl (fun bm c =>
    match commitReMatch c with
    | none => bm
    | some (g1, g2, g3) =>
        let sha := strStripSet ['`'] g1
        let raw_msg := strStrip (strLstrip [' ', '-', '–', '—'] (stripTickets g2))
        match alGet bm raw_msg with
        | some l => alSet bm raw_msg (l ++ [(sha, g3)])
        | none => bm ++ [(raw_msg, [(sha, g3)])]) []
  by_msg.map (fun p =>
    let sha_str :=
      if add_links then joinSep ", " (p.2.map (fun q => q.1 ++ " " ++ q.2))
      else joinSep ", " (p.2.map (fun q => q.1))
    "  ↳ " ++ p.1 ++ " (" ++ sha_str ++ ")")

/-- Embedding of the `issue_line` helper of `build_report` (standup.py lines
444-446). -/
def issue_line_plain (add_links : Bool) (ident title url suffix : String) : String :=
  "• " ++ ident ++ (if title ≠ "" then " — " ++ title else "") ++ suffix
    ++ (if add_links ∧ url ≠ "" then " " ++ url else "")

/-- Python `sorted` on `(identifier, title, url)` triples (tuple order). -/
def tripleLe (a b : String × String × String) : Bool :=
  strLt a.1 b.1 || (a.1 == b.1 &&
    (strLt a.2.1 b.2.1 || (a.2.1 == b.2.1 && strLe a.2.2 b.2.2)))

/-- Insertion step of `sortTriples`. -/
def sortedInsertTriple (x : String × String × String) :
    List (String × String × String) → List (String × String × String)
  | [] => [x]
  | y :: t => if tripleLe x y then x :: y :: t else y :: sortedInsertTriple x t

/-- Python `sorted(backlog_issues)`. -/
def sortTriples (l : List (String × String × String)) :
    List (String × String × String) :=
  l.foldr sortedInsertTriple []

/-- Embedding of `build_report` (standup.py lines 426-487), returning the
physical lines of the plain-text report. -/
def build_report (done_issues review_issues : List (String × String × String))
    (worked_on : List (String × WorkInfo))
    (blocked_issues : List (String × String × String))
    (todayStr : String) (add_links : Bool) (show_commits : List String)
    (done_commits : List (String × List String)) (orphan_commits : List String) :
    List String :=
  ["Daily standup — " ++ todayStr, ""]
  ++ [SEC_DONE]
  ++ (if done_issues ≠ [] then
        done_issues.flatMap (fun p =>
          issue_line_plain add_links p.1 p.2.1 p.2.2 "" ::
          (if show_commits.contains "done"
           then _render_commits_plain ((alGet done_commits p.1).getD []) add_links
           else []))
      else ["• —"])
  ++ (if review_issues ≠ [] then
        ["", SEC_REVIEW] ++ review_issues.flatMap (fun p =>
          issue_line_plain add_links p.1 p.2.1 p.2.2 "" ::
          (if show_commits.contains "done"
           then _render_commits_plain ((alGet done_commits p.1).getD []) add_links
           else []))
      else [])
  ++ ["", SEC_IN_PROGRESS]
  ++ (if worked_on ≠ [] then
        (sortByKey worked_on).flatMap (fun p =>
          issue_line_plain add_links p.1 p.2.title p.2.url "" ::
          (if show_commits.contains "in_progress"
           then _render_commits_plain p.2.commits add_links
           else []))
      else ["• —"])
  ++ (if show_commits.contains "orphan" = true ∧ orphan_commits ≠ [] then
        ["", SEC_ORPHAN_COMMITS] ++ _render_commits_plain orphan_commits add_links
      else [])
  ++ ["", SEC_BLOCKED]
  ++ (if blocked_issues ≠ [] then
        blocked_issues.map (fun p => issue_line_plain add_links p.1 p.2.1 p.2.2 " blocked")
      else ["• No"])
  ++ ["", SEC_NEED_TASKS]
  ++ ["• Need tasks: no"]

/-- Embedding of the `bold` helper of `build_slack_report` (standup.py lines
318-321): `s.split(" ", 1)` and bold markers around the part after the first
space (or around the whole string when it has no space). -/
def bold (s : String) : String :=
  let pre := s.data.takeWhile (fun c => c ≠ ' ')
  let post := s.data.dropWhile (fun c => c ≠ ' ')
  match post with
  | [] => "*" ++ s ++ "*"
  | _ :: rest => (⟨pre⟩ : String) ++ " *" ++ (⟨rest⟩ : String) ++ "*"

/-- Embedding of the `issue_line` helper of `build_slack_report` (standup.py
lines 313-316). -/
def issue_line_slack (ident title url suffix : String) : String :=
  let linked := if url ≠ "" then "<" ++ url ++ "|" ++ ident ++ ">" else ident
  let label := if title ≠ "" then " — " ++ title else ""
  "• " ++ linked ++ label ++ suffix

/-- Embedding of `build_slack_report` (standup.py lines 294-378), returning
the physical lines of the chat (mrkdwn) report. -/
def build_slack_report (done_issues review_issues : List (String × String × String))
    (worked_on : List (String × WorkInfo))
    (blocked_issues backlog_issues : List (String × String × String))
    (commits_by_ticket : List (String × List String)) (orphan_commits : List String)
    (todayStr : String) (show_commits : List String)
    (done_commits : List (String × List String)) : List String :=
  ["*Daily standup — " ++ todayStr ++ "*", ""]
  ++ [bold SEC_DONE]
  ++ (if done_issues ≠ [] then
        done_issues.flatMap (fun p =>
          issue_line_slack p.1 p.2.1 p.2.2 "" ::
          (if show_commits.contains "done"
           then _render_commits_slack ((alGet done_commits p.1).getD [])
           else []))
      else ["• —"])
  ++ (if review_issues ≠ [] then
        ["", bold SEC_REVIEW] ++ review_issues.flatMap (fun p =>
          issue_line_slack p.1 p.2.1 p.2.2 "" ::
          (if show_commits.contains "done"
           then _render_commits_slack ((alGet done_commits p.1).getD [])
           else []))
      else [])
  ++ ["", bold SEC_IN_PROGRESS]
  ++ (if worked_on ≠ [] then
        (sortByKey worked_on).flatMap (fun p =>
          issue_line_slack p.1 p.2.title p.2.url "" ::
          (if show_commits.contains "in_progress"
           then _render_commits_slack p.2.commits
           else []))
      else ["• —"])
  ++ (if show_commits.contains "in_progress" then
        (let done_ids := doneIds done_issues review_issues
         let orphan_tickets := sortStrs ((commits_by_ticket.map Prod.fst).filter
           (fun tk => !(alHas worked_on tk) && !(done_ids.contains tk)))
         if orphan_tickets ≠ [] then
           ["", bold SEC_UNKNOWN_TICKETS]
           ++ orphan_tickets.flatMap (fun tk =>
                (_render_commits_slack ((alGet commits_by_ticket tk).getD [])).map
                  (fun line => "  " ++ tk ++ ":" ++ (⟨line.data.dropWhile isSpaceChar⟩ : String)))
         else [])
      else [])
  ++ (if show_commits.contains "orphan" = true ∧ orphan_commits ≠ [] then
        ["", bold SEC_ORPHAN_COMMITS] ++ _render_commits_slack orphan_commits
      else [])
  ++ ["", bold SEC_BLOCKED]
  ++ (if blocked_issues ≠ [] then
        blocked_issues.map (fun p => issue_line_slack p.1 p.2.1 p.2.2 " — blocked")
      else ["• No"])
  ++ ["", bold SEC_NEED_TASKS]
  ++ ["• Need tasks: no"]
  ++ (if backlog_issues ≠ [] then
        ["", "---", bold SEC_BACKLOG]
        ++ (sortTriples backlog_issues).map (fun p => issue_line_slack p.1 p.2.1 p.2.2 "")
      else [])

/-! ## Skeleton extraction (the "strip markup" reading of the round-trip
specification): the per-section sequence of issue identifiers, with chat
markup removed.  A line starting with the bullet marker contributes its
identifier (the text of a `<url|id>` chat link, else the first
space-delimited token); a line starting with `:` is a section header and
contributes its text with the `*` bold markers removed; every other line
(title, blank, separator, indented commit sub-line) is chrome and is
dropped. -/

inductive SkelItem
  | header (s : String)
  | issue (id : String)
deriving DecidableEq, Repr

/-- Remove the chat bold markers. -/
def stripStars (s : String) : String := ⟨s.data.filter (fun c => c ≠ '*')⟩

/-- Identifier of an issue bullet line, given the text after the `• `. -/
def extractId (cs : List Char) : String :=
  if cs.head? = some '<' then
    ⟨((cs.dropWhile (fun c => c ≠ '|')).drop 1).takeWhile (fun c => c ≠ '>')⟩
  else ⟨cs.takeWhile (fun c => c ≠ ' ')⟩

/-- Classify one physical line of a rendered report. -/
def skelLine (l : String) : Option SkelItem :=
  if l.data.take 2 = ['•', ' '] then some (SkelItem.issue (extractId (l.data.drop 2)))
  else if l.data.head? = some ':' then some (SkelItem.header (stripStars l))
  else none

/-- The skeleton of a rendered report. -/
def skel (lines : List String) : List SkelItem := lines.filterMap skelLine

/-- An identifier free of markup metacharacters (space, `<`, `|`, `>`). -/
def cleanId (s : String) : Prop :=
  ∀ c ∈ s.data, c ≠ ' ' ∧ c ≠ '<' ∧ c ≠ '|' ∧ c ≠ '>'

/-- A URL free of the chat link delimiters `|` and `>`. -/
def cleanUrl (s : String) : Prop := ∀ c ∈ s.data, c ≠ '|' ∧ c ≠ '>'

instance (s : String) : Decidable (cleanId s) := by
  unfold cleanId
  infer_instance

instance (s : String) : Decidable (cleanUrl s) := by
  unfold cleanUrl
  infer_instance

/-! ## Theorems settling the claims -/

/-! ### Association-list lemmas -/

theorem alGet_alSet_self {α : Type} (l : List (String × α)) (k : String) (v : α) :
    alGet (alSet l k v) k = some v := by
  induction l with
  | nil => simp [alSet, alGet]
  | cons p t ih =>
      obtain ⟨a, w⟩ := p
      by_cases h : a = k <;> simp [alSet, alGet, h, ih]

theorem alGet_alSet_ne {α : Type} (l : List (String × α)) (k k' : String) (v : α)
    (h : k ≠ k') : alGet (alSet l k v) k' = alGet l k' := by
  induction l with
  | nil => simp [alSet, alGet, h]
  | cons p t ih =>
      obtain ⟨a, w⟩ := p
      by_cases ha : a = k
      · subst ha; simp [alSet, alGet, h]
      · simp [alSet, alGet, ha, ih]

theorem alGet_mem {α : Type} {l : List (String × α)} {k : String} {v : α}
    (h : alGet l k = some v) : (k, v) ∈ l := by
  induction l with
  | nil => simp [alGet] at h
  | cons p t ih =>
      obtain ⟨a, w⟩ := p
      by_cases ha : a = k
      · subst ha
        simp [alGet] at h
        simp [h]
      · simp [alGet, ha] at h
        exact List.mem_cons_of_mem _ (ih h)

theorem alGet_eq_none_iff {α : Type} (l : List (String × α)) (k : String) :
    alGet l k = none ↔ ∀ p ∈ l, p.1 ≠ k := by
  induction l with
  | nil => simp [alGet]
  | cons p t ih =>
      obtain ⟨a, w⟩ := p
      by_cases ha : a = k
      · subst ha; simp [alGet]
      · simp [alGet, ha, ih]

theorem alSet_mem {α : Type} {l : List (String × α)} {k : String} {v : α}
    {q : String × α} (hq : q ∈ alSet l k v) : q ∈ l ∨ q.1 = k := by
  induction l with
  | nil =>
      simp [alSet] at hq
      simp [hq]
  | cons p t ih =>
      obtain ⟨a, w⟩ := p
      by_cases ha : a = k
      · subst ha
        simp [alSet] at hq
        rcases hq with h | h
        · right; simp [h]
        · left; exact List.mem_cons_of_mem _ h
      · simp [alSet, ha] at hq
        rcases hq with h | h
        · left; simp [h]
        · rcases ih h with h' | h'
          · left; exact List.mem_cons_of_mem _ h'
          · right; exact h'

theorem alSet_keys_nodup {α : Type} {l : List (String × α)}
    (h : (l.map Prod.fst).Nodup) (k : String) (v : α) :
    ((alSet l k v).map Prod.fst).Nodup := by
  induction l with
  | nil => simp [alSet]
  | cons p t ih =>
      obtain ⟨a, w⟩ := p
      rw [List.map_cons, List.nodup_cons] at h
      by_cases ha : a = k
      · subst ha
        rw [alSet, if_pos rfl, List.map_cons, List.nodup_cons]
        exact h
      · rw [alSet, if_neg ha, List.map_cons, List.nodup_cons]
        refine ⟨?_, ih h.2⟩
        intro hmem
        rcases List.mem_map.mp hmem with ⟨q, hq, hfst⟩
        rcases alSet_mem hq with h' | h'
        · exact h.1 (List.mem_map.mpr ⟨q, h', hfst⟩)
        · exact ha (hfst.symm.trans h')

theorem alSet_key_mem {α : Type} (l : List (String × α)) (k : String) (v : α) :
    k ∈ (alSet l k v).map Prod.fst := by
  induction l with
  | nil => simp [alSet]
  | cons p t ih =>
      obtain ⟨a, w⟩ := p
      by_cases ha : a = k <;> simp [alSet, ha, ih]

theorem alSet_keys_mono {α : Type} {l : List (String × α)} {k' : String}
    (h : k' ∈ l.map Prod.fst) (k : String) (v : α) :
    k' ∈ (alSet l k v).map Prod.fst := by
  induction l with
  | nil => simp at h
  | cons p t ih =>
      obtain ⟨a, w⟩ := p
      rw [List.map_cons, List.mem_cons] at h
      by_cases ha : a = k
      · subst ha
        rw [alSet, if_pos rfl, List.map_cons, List.mem_cons]
        exact h
      · rw [alSet, if_neg ha, List.map_cons, List.mem_cons]
        rcases h with h | h
        · exact Or.inl h
        · exact Or.inr (ih h)

theorem alPop_fst {α : Type} (l : List (String × α)) (k : String) :
    (alPop l k).1 = alGet l k := by
  induction l with
  | nil => simp [alPop, alGet]
  | cons p t ih =>
      obtain ⟨a, w⟩ := p
      by_cases ha : a = k <;> simp [alPop, alGet, ha, ih]

theorem alPop_sublist {α : Type} (l : List (String × α)) (k : String) :
    (alPop l k).2.Sublist l := by
  induction l with
  | nil => simp [alPop]
  | cons p t ih =>
      obtain ⟨a, w⟩ := p
      by_cases ha : a = k
      · simp [alPop, ha]
      · simpa [alPop, ha] using ih

theorem alPop_no_key {α : Type} {l : List (String × α)}
    (h : (l.map Prod.fst).Nodup) (k : String) :
    ∀ p ∈ (alPop l k).2, p.1 ≠ k := by
  induction l with
  | nil => intro p hp; simp [alPop] at hp
  | cons p t ih =>
      obtain ⟨a, w⟩ := p
      rw [List.map_cons, List.nodup_cons] at h
      by_cases ha : a = k
      · subst ha
        rw [alPop, if_pos rfl]
        intro q hq hqk
        exact h.1 (List.mem_map.mpr ⟨q, hq, hqk⟩)
      · rw [alPop, if_neg ha]
        intro q hq
        rw [List.mem_cons] at hq
        rcases hq with rfl | hq
        · exact ha
        · exact ih h.2 q hq

theorem alGet_none_of_sublist {α : Type} {l l' : List (String × α)}
    (hs : l'.Sublist l) {k : String} (hn : alGet l k = none) :
    alGet l' k = none := by
  rw [alGet_eq_none_iff] at hn ⊢
  exact fun p hp => hn p (hs.mem hp)

theorem sortedInsertKey_perm {α : Type} (p : String × α) (l : List (String × α)) :
    (sortedInsertKey p l).Perm (p :: l) := by
  induction l with
  | nil => simp [sortedInsertKey]
  | cons q t ih =>
      by_cases h : strLe p.1 q.1
      · simp [sortedInsertKey, h]
      · rw [sortedInsertKey, if_neg (by simpa using h)]
        exact (ih.cons q).trans (List.Perm.swap p q t)

theorem sortByKey_perm {α : Type} (l : List (String × α)) :
    (sortByKey l).Perm l := by
  induction l with
  | nil => simp [sortByKey]
  | cons p t ih =>
      simp only [sortByKey, List.foldr_cons]
      exact (sortedInsertKey_perm p _).trans ((ih).cons p)

theorem alGet_eq_some_iff_of_nodup {α : Type} {l : List (String × α)}
    (h : (l.map Prod.fst).Nodup) (k : String) (v : α) :
    alGet l k = some v ↔ (k, v) ∈ l := by
  constructor
  · exact alGet_mem
  · intro hm
    induction l with
    | nil => cases hm
    | cons p t ih =>
        obtain ⟨a, w⟩ := p
        rw [List.map_cons, List.nodup_cons] at h
        rw [List.mem_cons] at hm
        rcases hm with heq | hm
        · injection heq with h1 h2
          subst h1
          subst h2
          simp [alGet]
        · have hak : a ≠ k := by
            intro hak
            subst hak
            exact h.1 (List.mem_map.mpr ⟨(a, v), hm, rfl⟩)
          rw [alGet, if_neg hak]
          exact ih h.2 hm

theorem alGet_sortByKey {α : Type} {l : List (String × α)}
    (h : (l.map Prod.fst).Nodup) (k : String) :
    alGet (sortByKey l) k = alGet l k := by
  have hperm := sortByKey_perm l
  have hn : ((sortByKey l).map Prod.fst).Nodup :=
    ((hperm.map Prod.fst).nodup_iff).mpr h
  cases hv : alGet l k with
  | some v =>
      rw [alGet_eq_some_iff_of_nodup hn]
      exact hperm.mem_iff.mpr (alGet_mem hv)
  | none =>
      rw [alGet_eq_none_iff] at hv ⊢
      exact fun p hp => hv p (hperm.mem_iff.mp hp)

theorem alGet_map_val {α β : Type} (g : α → β) (l : List (String × α)) (k : String) :
    alGet (l.map (fun p => (p.1, g p.2))) k = (alGet l k).map g := by
  induction l with
  | nil => simp [alGet]
  | cons p t ih =>
      obtain ⟨a, w⟩ := p
      by_cases ha : a = k <;> simp [alGet, ha, ih]


/-! ### String-order and classification lemmas -/

theorem strLe_empty_of_ne {s : String} (h : s ≠ "") : strLe s "" = false := by
  obtain ⟨data⟩ := s
  cases data with
  | nil => exact absurd rfl h
  | cons c cs => rfl

theorem classifyStep_backlog (f t : String) (st : TrackerBuckets) (i : IssueRec) :
    (classifyStep f t st i).backlog_issues
      = st.backlog_issues ++
        (if classifyIssue f t i = some Bucket.backlog
         then [(i.identifier, i.title, i.url)] else []) := by
  unfold classifyStep
  cases hcl : classifyIssue f t i with
  | none => simp [hcl]
  | some b => cases b <;> simp [hcl]

theorem classifyStep_done (f t : String) (st : TrackerBuckets) (i : IssueRec) :
    (classifyStep f t st i).done_issues
      = st.done_issues ++
        (if classifyIssue f t i = some Bucket.done
         then [(i.identifier, i.title, i.url)] else []) := by
  unfold classifyStep
  cases hcl : classifyIssue f t i with
  | none => simp [hcl]
  | some b => cases b <;> simp [hcl]

theorem classifyStep_review (f t : String) (st : TrackerBuckets) (i : IssueRec) :
    (classifyStep f t st i).review_issues
      = st.review_issues ++
        (if classifyIssue f t i = some Bucket.review
         then [(i.identifier, i.title, i.url)] else []) := by
  unfold classifyStep
  cases hcl : classifyIssue f t i with
  | none => simp [hcl]
  | some b => cases b <;> simp [hcl]

theorem classifyStep_blocked (f t : String) (st : TrackerBuckets) (i : IssueRec) :
    (classifyStep f t st i).blocked_issues
      = st.blocked_issues ++
        (if classifyIssue f t i = some Bucket.blocked
         then [(i.identifier, i.title, i.url)] else []) := by
  unfold classifyStep
  cases hcl : classifyIssue f t i with
  | none => simp [hcl]
  | some b => cases b <;> simp [hcl]

theorem classifyStep_plane_active (f t : String) (st : TrackerBuckets) (i : IssueRec) :
    (classifyStep f t st i).plane_active
      = if classifyIssue f t i = some Bucket.active
        then alSet st.plane_active i.identifier (i.title, i.url)
        else st.plane_active := by
  unfold classifyStep
  cases hcl : classifyIssue f t i with
  | none => simp [hcl]
  | some b => cases b <;> simp [hcl]

theorem foldl_backlog_mono (f t : String) (is : List IssueRec) (st : TrackerBuckets) :
    ∃ suf, (is.foldl (classifyStep f t) st).backlog_issues = st.backlog_issues ++ suf := by
  induction is generalizing st with
  | nil => exact ⟨[], by simp⟩
  | cons i is ih =>
      obtain ⟨suf, hsuf⟩ := ih (classifyStep f t st i)
      refine ⟨(if classifyIssue f t i = some Bucket.backlog
        then [(i.identifier, i.title, i.url)] else []) ++ suf, ?_⟩
      rw [List.foldl_cons, hsuf, classifyStep_backlog, List.append_assoc]

theorem mem_backlog_of_classify (f t : String) (is : List IssueRec) (i : IssueRec)
    (hm : i ∈ is) (hc : classifyIssue f t i = some Bucket.backlog) :
    (i.identifier, i.title, i.url) ∈ (classifyAll f t is).backlog_issues := by
  have aux : ∀ (js : List IssueRec) (st : TrackerBuckets), i ∈ js →
      (i.identifier, i.title, i.url) ∈ (js.foldl (classifyStep f t) st).backlog_issues := by
    intro js
    induction js with
    | nil => intro st h; cases h
    | cons j js ih =>
        intro st hm
        rw [List.mem_cons] at hm
        rcases hm with rfl | hm
        · obtain ⟨suf, hsuf⟩ := foldl_backlog_mono f t js (classifyStep f t st i)
          rw [List.foldl_cons, hsuf, classifyStep_backlog, hc, if_pos rfl]
          simp
        · exact ih (classifyStep f t st j) hm
  exact aux is _ hm

theorem done_issues_provenance (f t : String) (is : List IssueRec) :
    ∀ (st : TrackerBuckets) x, x ∈ (is.foldl (classifyStep f t) st).done_issues →
      x ∈ st.done_issues ∨ ∃ i, i ∈ is ∧ classifyIssue f t i = some Bucket.done ∧
        x = (i.identifier, i.title, i.url) := by
  induction is with
  | nil => intro st x hx; exact Or.inl hx
  | cons j js ih =>
      intro st x hx
      rw [List.foldl_cons] at hx
      rcases ih _ x hx with h | ⟨i, hi, hci, hxi⟩
      · rw [classifyStep_done] at h
        rcases List.mem_append.mp h with h | h
        · exact Or.inl h
        · by_cases hcj : classifyIssue f t j = some Bucket.done
          · rw [if_pos hcj] at h
            rw [List.mem_singleton] at h
            exact Or.inr ⟨j, List.mem_cons_self _ _, hcj, h⟩
          · rw [if_neg hcj] at h; cases h
      · exact Or.inr ⟨i, List.mem_cons_of_mem _ hi, hci, hxi⟩

theorem review_issues_provenance (f t : String) (is : List IssueRec) :
    ∀ (st : TrackerBuckets) x, x ∈ (is.foldl (classifyStep f t) st).review_issues →
      x ∈ st.review_issues ∨ ∃ i, i ∈ is ∧ classifyIssue f t i = some Bucket.review ∧
        x = (i.identifier, i.title, i.url) := by
  induction is with
  | nil => intro st x hx; exact Or.inl hx
  | cons j js ih =>
      intro st x hx
      rw [List.foldl_cons] at hx
      rcases ih _ x hx with h | ⟨i, hi, hci, hxi⟩
      · rw [classifyStep_review] at h
        rcases List.mem_append.mp h with h | h
        · exact Or.inl h
        · by_cases hcj : classifyIssue f t j = some Bucket.review
          · rw [if_pos hcj] at h
            rw [List.mem_singleton] at h
            exact Or.inr ⟨j, List.mem_cons_self _ _, hcj, h⟩
          · rw [if_neg hcj] at h; cases h
      · exact Or.inr ⟨i, List.mem_cons_of_mem _ hi, hci, hxi⟩

theorem blocked_issues_provenance (f t : String) (is : List IssueRec) :
    ∀ (st : TrackerBuckets) x, x ∈ (is.foldl (classifyStep f t) st).blocked_issues →
      x ∈ st.blocked_issues ∨ ∃ i, i ∈ is ∧ classifyIssue f t i = some Bucket.blocked ∧
        x = (i.identifier, i.title, i.url) := by
  induction is with
  | nil => intro st x hx; exact Or.inl hx
  | cons j js ih =>
      intro st x hx
      rw [List.foldl_cons] at hx
      rcases ih _ x hx with h | ⟨i, hi, hci, hxi⟩
      · rw [classifyStep_blocked] at h
        rcases List.mem_append.mp h with h | h
        · exact Or.inl h
        · by_cases hcj : classifyIssue f t j = some Bucket.blocked
          · rw [if_pos hcj] at h
            rw [List.mem_singleton] at h
            exact Or.inr ⟨j, List.mem_cons_self _ _, hcj, h⟩
          · rw [if_neg hcj] at h; cases h
      · exact Or.inr ⟨i, List.mem_cons_of_mem _ hi, hci, hxi⟩

theorem plane_active_provenance (f t : String) (is : List IssueRec) :
    ∀ (st : TrackerBuckets) p, p ∈ (is.foldl (classifyStep f t) st).plane_active →
      p ∈ st.plane_active ∨ ∃ i, i ∈ is ∧ classifyIssue f t i = some Bucket.active ∧
        p.1 = i.identifier := by
  induction is with
  | nil => intro st p hp; exact Or.inl hp
  | cons j js ih =>
      intro st p hp
      rw [List.foldl_cons] at hp
      rcases ih _ p hp with h | ⟨i, hi, hci, hpi⟩
      · rw [classifyStep_plane_active] at h
        by_cases hcj : classifyIssue f t j = some Bucket.active
        · rw [if_pos hcj] at h
          rcases alSet_mem h with h' | h'
          · exact Or.inl h'
          · exact Or.inr ⟨j, List.mem_cons_self _ _, hcj, h'⟩
        · rw [if_neg hcj] at h
          exact Or.inl h
      · exact Or.inr ⟨i, List.mem_cons_of_mem _ hi, hci, hpi⟩

/-- C1: the claim says an override date always yields the window consisting of
exactly that day, and that the resolver always yields a non-empty range with
`start_date ≤ end_date`.  The code violates both when the override is a
Monday: `main` passes the override itself as `today` to `workday_range`, whose
Monday branch then returns `(override, override - 1)`, an inverted window.
Here `8` is a Monday ordinal (`weekday 8 = 0`), standing for e.g. 2024-01-08;
the resolver returns the inverted pair `(8, 7)`. -/
theorem c1_monday_override_inverted_window :
    resolveWindow 100 (some 8) = (8, 7) ∧ weekday 8 = 0 ∧ ¬ ((8 : Int) ≤ 7) := by
  refine ⟨?_, by decide, by decide⟩
  simp [resolveWindow, workday_range, weekday]

/-- C6: with no override, a Monday `today` resolves to the window from the
preceding Friday (`today - 3`, weekday 4) through yesterday (`today - 1`),
covering three calendar days, and every other day of the week resolves to the
single day `yesterday`. -/
theorem c6_no_override_window (today : Int) :
    (weekday today = 0 →
      resolveWindow today none = (today - 3, today - 1) ∧
      weekday (today - 3) = 4 ∧ (today - 1) - (today - 3) + 1 = 3) ∧
    (weekday today ≠ 0 →
      resolveWindow today none = (today - 1, today - 1)) := by
  constructor
  · intro h
    refine ⟨?_, ?_, by ring⟩
    · simp [resolveWindow, prev_workday, workday_range, h]
    · simp only [weekday] at h ⊢
      omega
  · intro h
    simp [resolveWindow, prev_workday, workday_range, h]

/-- Witness for C6 at the Monday ordinal 8 and the Tuesday ordinal 9. -/
theorem c6_no_override_window_witness :
    resolveWindow 8 none = (8 - 3, 8 - 1) ∧ resolveWindow 9 none = (9 - 1, 9 - 1) :=
  ⟨((c6_no_override_window 8).1 (by decide)).1, (c6_no_override_window 9).2 (by decide)⟩


/-- C2 counterexample: a backlog-group issue `DATA-1` together with a
non-merge commit in the window whose message references `DATA-1`.  The issue
lands in the backlog bucket, yet the merge step also creates an in-progress
(`worked_on`) entry for `DATA-1` carrying the issue's own title and URL
(found through `all_issues_lookup`), so the issue does appear in another
bucket, contrary to the claim. -/
theorem c2_backlog_issue_also_in_progress :
    (runPipeline "ws" "2024-01-05" "2024-01-05"
      [⟨"DATA-1", "Backlog task", "u1", "2024-01-01T09:00:00Z", "backlog", "Backlog", []⟩]
      "tok" [Except.ok [⟨"abc1234def", "DATA-1 - some work", "http://g/c1"⟩]]).1.backlog_issues
      = [("DATA-1", "Backlog task", "u1")] ∧
    alGet (runPipeline "ws" "2024-01-05" "2024-01-05"
      [⟨"DATA-1", "Backlog task", "u1", "2024-01-01T09:00:00Z", "backlog", "Backlog", []⟩]
      "tok" [Except.ok [⟨"abc1234def", "DATA-1 - some work", "http://g/c1"⟩]]).2.1.worked_on
      "DATA-1"
      = some ⟨"Backlog task", "u1", ["`abc1234` DATA-1 - some work (http://g/c1)"]⟩ :=
  ⟨rfl, rfl⟩

/-- C2 (amended): an issue whose workflow-state-group is backlog or unstarted
always lands in the backlog bucket, regardless of its last-updated date, and
the issue-classification step never places it in done, in-review, blocked or
the active (`plane_active`) set; the merge step may however additionally
surface its ticket as an in-progress entry when a commit in the window
references it. -/
theorem c2_backlog_group_classification (fromIso toIso : String)
    (is : List IssueRec) (i : IssueRec) (hm : i ∈ is)
    (hg : i.state_group = "backlog" ∨ i.state_group = "unstarted")
    (hnd : (is.map IssueRec.identifier).Nodup) :
    (i.identifier, i.title, i.url) ∈ (classifyAll fromIso toIso is).backlog_issues ∧
    (∀ x ∈ (classifyAll fromIso toIso is).done_issues, x.1 ≠ i.identifier) ∧
    (∀ x ∈ (classifyAll fromIso toIso is).review_issues, x.1 ≠ i.identifier) ∧
    (∀ x ∈ (classifyAll fromIso toIso is).blocked_issues, x.1 ≠ i.identifier) ∧
    (∀ p ∈ (classifyAll fromIso toIso is).plane_active, p.1 ≠ i.identifier) := by
  have hci : classifyIssue fromIso toIso i = some Bucket.backlog := by
    simp only [classifyIssue]
    rw [if_pos hg]
  have hinj := List.inj_on_of_nodup_map hnd
  refine ⟨mem_backlog_of_classify _ _ _ _ hm hci, ?_, ?_, ?_, ?_⟩
  · intro x hx hxi
    rcases done_issues_provenance fromIso toIso is _ x hx with h | ⟨j, hj, hcj, hxj⟩
    · cases h
    · have : j = i := hinj hj hm (by rw [← hxi, hxj])
      rw [this] at hcj
      rw [hci] at hcj
      cases hcj
  · intro x hx hxi
    rcases review_issues_provenance fromIso toIso is _ x hx with h | ⟨j, hj, hcj, hxj⟩
    · cases h
    · have : j = i := hinj hj hm (by rw [← hxi, hxj])
      rw [this] at hcj
      rw [hci] at hcj
      cases hcj
  · intro x hx hxi
    rcases blocked_issues_provenance fromIso toIso is _ x hx with h | ⟨j, hj, hcj, hxj⟩
    · cases h
    · have : j = i := hinj hj hm (by rw [← hxi, hxj])
      rw [this] at hcj
      rw [hci] at hcj
      cases hcj
  · intro p hp hpi
    rcases plane_active_provenance fromIso toIso is _ p hp with h | ⟨j, hj, hcj, hpj⟩
    · cases h
    · have : j = i := hinj hj hm (by rw [← hpi, hpj])
      rw [this] at hcj
      rw [hci] at hcj
      cases hcj

/-- Witness for the amended C2 at a concrete backlog issue. -/
theorem c2_backlog_group_classification_witness :
    ("DATA-1", "Backlog task", "u1") ∈ (classifyAll "2024-01-05" "2024-01-05"
      [⟨"DATA-1", "Backlog task", "u1", "2024-01-01T09:00:00Z", "backlog", "Backlog", []⟩]).backlog_issues :=
  (c2_backlog_group_classification "2024-01-05" "2024-01-05" _ _
    (List.mem_singleton.mpr rfl) (Or.inl rfl) (by simp)).1

/-- C3 counterexample: an issue whose state group is `cancelled` (neither
backlog nor unstarted), updated inside the window, is classified into no
bucket at all, although its last-updated date lies within the range — the
classification chain has no branch for groups outside
completed/review/blocked/started.  This refutes the "if" direction of the
claimed equivalence. -/
theorem c3_cancelled_in_range_unbucketed :
    classifyIssue "2024-01-05" "2024-01-05"
      ⟨"DATA-2", "Cancelled task", "u2", "2024-01-05T09:00:00Z", "cancelled", "Cancelled", []⟩
      = none ∧
    (strLe "2024-01-05" (strTake "2024-01-05T09:00:00Z" 10)
      && strLe (strTake "2024-01-05T09:00:00Z" 10) "2024-01-05") = true ∧
    classifyAll "2024-01-05" "2024-01-05"
      [⟨"DATA-2", "Cancelled task", "u2", "2024-01-05T09:00:00Z", "cancelled", "Cancelled", []⟩]
      = ⟨[], [], [], [], [], [("DATA-2", "Cancelled task", "u2")]⟩ :=
  ⟨rfl, rfl, rfl⟩

/-- C3 (amended): for an issue outside the backlog/unstarted groups, the
classification step places it in some non-backlog bucket if and only if its
last-updated date lies within `[date_from, date_to]` inclusive AND the issue
matches one of the four classification rules (completed group, "review" in
the state name, a "blocked" label, or started group); issues matching no rule
are excluded even when updated in range. -/
theorem c3_nonbacklog_bucket_iff (fromIso toIso : String) (i : IssueRec)
    (h1 : i.state_group ≠ "backlog") (h2 : i.state_group ≠ "unstarted") :
    (∃ b, classifyIssue fromIso toIso i = some b ∧ b ≠ Bucket.backlog) ↔
      ((strLe fromIso (if i.updated_at = "" then "" else strTake i.updated_at 10)
        && strLe (if i.updated_at = "" then "" else strTake i.updated_at 10) toIso) = true
       ∧ (i.state_group = "completed"
          ∨ strContains (strLower i.state_name) "review" = true
          ∨ (i.labels.map strLower).contains "blocked" = true
          ∨ i.state_group = "started")) := by
  have hcond : ¬ (i.state_group = "backlog" ∨ i.state_group = "unstarted") := by
    rintro (h | h)
    exacts [h1 h, h2 h]
  simp only [classifyIssue]
  rw [if_neg hcond]
  by_cases hr : (strLe fromIso (if i.updated_at = "" then "" else strTake i.updated_at 10)
      && strLe (if i.updated_at = "" then "" else strTake i.updated_at 10) toIso) = true
  · rw [if_neg (by simp [hr])]
    by_cases hc : i.state_group = "completed" <;>
      by_cases hv : strContains (strLower i.state_name) "review" = true <;>
        by_cases hb : ∃ a ∈ i.labels, strLower a = "blocked" <;>
          by_cases hs : i.state_group = "started" <;>
            simp [hc, hv, hb, hs, hr]
  · have hr' : (strLe fromIso (if i.updated_at = "" then "" else strTake i.updated_at 10)
        && strLe (if i.updated_at = "" then "" else strTake i.updated_at 10) toIso) = false :=
      Bool.eq_false_iff.mpr hr
    rw [if_pos (by simp [hr'])]
    simp [hr']

/-- Witness for the amended C3: a started-group issue updated in range is
bucketed, by the right-to-left direction. -/
theorem c3_nonbacklog_bucket_iff_witness :
    ∃ b, classifyIssue "2024-01-05" "2024-01-05"
      ⟨"DATA-4", "Active task", "u4", "2024-01-05T10:00:00Z", "started", "In Progress", []⟩
      = some b ∧ b ≠ Bucket.backlog :=
  (c3_nonbacklog_bucket_iff "2024-01-05" "2024-01-05"
    ⟨"DATA-4", "Active task", "u4", "2024-01-05T10:00:00Z", "started", "In Progress", []⟩
    (by decide) (by decide)).mpr (by decide)

/-- C10: an issue outside the backlog/unstarted groups whose `updated_at`
field is missing or empty is assigned to no bucket: the empty date string
never satisfies `date_from.isoformat() <= updated_date` when the window
start is a non-empty ISO string. -/
theorem c10_missing_updated_excluded (fromIso toIso : String) (i : IssueRec)
    (hne : fromIso ≠ "")
    (h1 : i.state_group ≠ "backlog") (h2 : i.state_group ≠ "unstarted")
    (hu : i.updated_at = "") :
    classifyIssue fromIso toIso i = none := by
  have hcond : ¬ (i.state_group = "backlog" ∨ i.state_group = "unstarted") := by
    rintro (h | h)
    exacts [h1 h, h2 h]
  have hle : strLe fromIso "" = false := strLe_empty_of_ne hne
  simp only [classifyIssue, hu]
  rw [if_neg hcond, if_pos (by simp [hle])]

/-- Witness for C10 at a started issue with an empty `updated_at`. -/
theorem c10_missing_updated_excluded_witness :
    classifyIssue "2024-01-05" "2024-01-05"
      ⟨"DATA-3", "Stale task", "u3", "", "started", "In Progress", []⟩ = none :=
  c10_missing_updated_excluded "2024-01-05" "2024-01-05"
    ⟨"DATA-3", "Stale task", "u3", "", "started", "In Progress", []⟩
    (by decide) (by decide) (by decide) rfl

/-! ### Merge-step lemmas -/

theorem mergeFold_done_commits_frozen (slug : String) (done_ids : List String)
    (lkp : List (String × String × String)) (cbt : List (String × List String))
    (t : String) (hno : ∀ p ∈ cbt, p.1 ≠ t) :
    ∀ st : MergeState,
      alGet (cbt.foldl (mergeStep slug done_ids lkp) st).done_commits t
        = alGet st.done_commits t := by
  induction cbt with
  | nil => intro st; rfl
  | cons p rest ih =>
      intro st
      rw [List.foldl_cons]
      have hpt : p.1 ≠ t := hno p (List.mem_cons_self _ _)
      have hrest : ∀ q ∈ rest, q.1 ≠ t := fun q hq => hno q (List.mem_cons_of_mem _ hq)
      rw [ih hrest]
      unfold mergeStep
      by_cases hd : done_ids.contains p.1
      · rw [if_pos hd]
        exact alGet_alSet_ne _ _ _ _ hpt
      · rw [if_neg hd]

theorem mergeFold_worked_on_frozen (slug : String) (done_ids : List String)
    (lkp : List (String × String × String)) (cbt : List (String × List String))
    (t : String) (hno : ∀ p ∈ cbt, p.1 ≠ t) :
    ∀ st : MergeState,
      alGet (cbt.foldl (mergeStep slug done_ids lkp) st).worked_on t
        = alGet st.worked_on t := by
  induction cbt with
  | nil => intro st; rfl
  | cons p rest ih =>
      intro st
      rw [List.foldl_cons]
      have hpt : p.1 ≠ t := hno p (List.mem_cons_self _ _)
      have hrest : ∀ q ∈ rest, q.1 ≠ t := fun q hq => hno q (List.mem_cons_of_mem _ hq)
      rw [ih hrest]
      unfold mergeStep
      by_cases hd : done_ids.contains p.1
      · rw [if_pos hd]
      · rw [if_neg hd]
        exact alGet_alSet_ne _ _ _ _ hpt

theorem mergeFold_plane_active_sublist (slug : String) (done_ids : List String)
    (lkp : List (String × String × String)) (cbt : List (String × List String)) :
    ∀ st : MergeState,
      (cbt.foldl (mergeStep slug done_ids lkp) st).plane_active.Sublist st.plane_active := by
  induction cbt with
  | nil => intro st; exact List.Sublist.refl _
  | cons p rest ih =>
      intro st
      rw [List.foldl_cons]
      refine (ih _).trans ?_
      unfold mergeStep
      by_cases hd : done_ids.contains p.1
      · rw [if_pos hd]
      · rw [if_neg hd]
        exact alPop_sublist _ _

theorem mergeFold_worked_on_keys (slug : String) (done_ids : List String)
    (lkp : List (String × String × String)) (cbt : List (String × List String)) :
    ∀ (st : MergeState) q, q ∈ (cbt.foldl (mergeStep slug done_ids lkp) st).worked_on →
      q ∈ st.worked_on ∨ done_ids.contains q.1 = false := by
  induction cbt with
  | nil => intro st q hq; exact Or.inl hq
  | cons p rest ih =>
      intro st q hq
      rw [List.foldl_cons] at hq
      rcases ih _ q hq with h | h
      · unfold mergeStep at h
        by_cases hd : done_ids.contains p.1
        · rw [if_pos hd] at h
          exact Or.inl h
        · rw [if_neg hd] at h
          rcases alSet_mem h with h' | h'
          · exact Or.inl h'
          · refine Or.inr ?_
            rw [h']
            exact Bool.eq_false_iff.mpr hd
      · exact Or.inr h

theorem mergeFold_done_commits_keys (slug : String) (done_ids : List String)
    (lkp : List (String × String × String)) (cbt : List (String × List String)) :
    ∀ (st : MergeState) q, q ∈ (cbt.foldl (mergeStep slug done_ids lkp) st).done_commits →
      q ∈ st.done_commits ∨ done_ids.contains q.1 = true := by
  induction cbt with
  | nil => intro st q hq; exact Or.inl hq
  | cons p rest ih =>
      intro st q hq
      rw [List.foldl_cons] at hq
      rcases ih _ q hq with h | h
      · unfold mergeStep at h
        by_cases hd : done_ids.contains p.1
        · rw [if_pos hd] at h
          rcases alSet_mem h with h' | h'
          · exact Or.inl h'
          · exact Or.inr (h' ▸ hd)
        · rw [if_neg hd] at h
          exact Or.inl h
      · exact Or.inr h

theorem mergeFold_done_commits_get (slug : String) (done_ids : List String)
    (lkp : List (String × String × String)) (cbt : List (String × List String))
    (t : String) (lines : List String)
    (hnd : (cbt.map Prod.fst).Nodup) (hmem : (t, lines) ∈ cbt)
    (hdone : done_ids.contains t = true) :
    ∀ st : MergeState,
      alGet (cbt.foldl (mergeStep slug done_ids lkp) st).done_commits t = some lines := by
  induction cbt with
  | nil => cases hmem
  | cons p rest ih =>
      intro st
      rw [List.map_cons, List.nodup_cons] at hnd
      rw [List.mem_cons] at hmem
      rcases hmem with rfl | hmem
      · have hno : ∀ q ∈ rest, q.1 ≠ t := by
          intro q hq hqt
          exact hnd.1 (List.mem_map.mpr ⟨q, hq, hqt⟩)
        rw [List.foldl_cons, mergeFold_done_commits_frozen slug done_ids lkp rest t hno]
        unfold mergeStep
        rw [if_pos hdone]
        exact alGet_alSet_self _ _ _
      · rw [List.foldl_cons]
        exact ih hnd.2 hmem _

theorem mergeFold_worked_on_get (slug : String) (done_ids : List String)
    (lkp : List (String × String × String)) (cbt : List (String × List String))
    (t : String) (lines : List String)
    (hnd : (cbt.map Prod.fst).Nodup) (hmem : (t, lines) ∈ cbt)
    (hdone : done_ids.contains t = false) :
    ∀ st : MergeState, (st.plane_active.map Prod.fst).Nodup →
      (∃ info : WorkInfo,
        alGet (cbt.foldl (mergeStep slug done_ids lkp) st).worked_on t = some info ∧
        info.commits = lines) ∧
      (∀ p ∈ (cbt.foldl (mergeStep slug done_ids lkp) st).plane_active, p.1 ≠ t) := by
  induction cbt with
  | nil => cases hmem
  | cons p rest ih =>
      intro st hpand
      rw [List.map_cons, List.nodup_cons] at hnd
      rw [List.mem_cons] at hmem
      rw [List.foldl_cons]
      have hdneg : ¬ done_ids.contains t = true := by
        rw [hdone]
        exact Bool.false_ne_true
      rcases hmem with rfl | hmem
      · have hno : ∀ q ∈ rest, q.1 ≠ t := fun q hq hqt =>
          hnd.1 (List.mem_map.mpr ⟨q, hq, hqt⟩)
        constructor
        · rw [mergeFold_worked_on_frozen slug done_ids lkp rest t hno]
          unfold mergeStep
          rw [if_neg hdneg]
          exact ⟨_, alGet_alSet_self _ _ _, rfl⟩
        · intro q hq
          have hq' := (mergeFold_plane_active_sublist slug done_ids lkp rest _).mem hq
          unfold mergeStep at hq'
          rw [if_neg hdneg] at hq'
          exact alPop_no_key hpand t q hq'
      · apply ih hnd.2 hmem
        unfold mergeStep
        by_cases hd : done_ids.contains p.1
        · rw [if_pos hd]
          exact hpand
        · rw [if_neg hd]
          exact hpand.sublist ((alPop_sublist _ _).map Prod.fst)

theorem mergeFold_worked_on_get_synth (slug : String) (done_ids : List String)
    (lkp : List (String × String × String)) (cbt : List (String × List String))
    (t : String) (lines : List String)
    (hnd : (cbt.map Prod.fst).Nodup) (hmem : (t, lines) ∈ cbt)
    (hdone : done_ids.contains t = false)
    (hlkp : alGet lkp t = none) :
    ∀ st : MergeState, (∀ p ∈ st.plane_active, p.1 ≠ t) →
      alGet (cbt.foldl (mergeStep slug done_ids lkp) st).worked_on t
        = some ⟨title_from_commits t lines, build_browse_url slug t, lines⟩ ∧
      (∀ p ∈ (cbt.foldl (mergeStep slug done_ids lkp) st).plane_active, p.1 ≠ t) := by
  induction cbt with
  | nil => cases hmem
  | cons p rest ih =>
      intro st hpa
      rw [List.map_cons, List.nodup_cons] at hnd
      rw [List.mem_cons] at hmem
      rw [List.foldl_cons]
      have hdneg : ¬ done_ids.contains t = true := by
        rw [hdone]
        exact Bool.false_ne_true
      rcases hmem with rfl | hmem
      · have hno : ∀ q ∈ rest, q.1 ≠ t := fun q hq hqt =>
          hnd.1 (List.mem_map.mpr ⟨q, hq, hqt⟩)
        have hpop1 : (alPop st.plane_active t).1 = none := by
          rw [alPop_fst]
          exact (alGet_eq_none_iff _ _).mpr hpa
        constructor
        · rw [mergeFold_worked_on_frozen slug done_ids lkp rest t hno]
          unfold mergeStep
          rw [if_neg hdneg]
          simp only [hpop1, hlkp]
          exact alGet_alSet_self _ _ _
        · intro q hq
          have hq' := (mergeFold_plane_active_sublist slug done_ids lkp rest _).mem hq
          unfold mergeStep at hq'
          rw [if_neg hdneg] at hq'
          exact hpa q ((alPop_sublist _ _).mem hq')
      · apply ih hnd.2 hmem
        intro q hq
        unfold mergeStep at hq
        by_cases hd : done_ids.contains p.1
        · rw [if_pos hd] at hq
          exact hpa q hq
        · rw [if_neg hd] at hq
          exact hpa q ((alPop_sublist _ _).mem hq)

theorem leftoverFold_keys (done_ids : List String) :
    ∀ (pa : List (String × String × String)) (w : List (String × WorkInfo)) q,
      q ∈ pa.foldl (fun w q => if done_ids.contains q.1 then w
        else alSet w q.1 ⟨q.2.1, q.2.2, []⟩) w →
      q ∈ w ∨ done_ids.contains q.1 = false := by
  intro pa
  induction pa with
  | nil => intro w q hq; exact Or.inl hq
  | cons r rest ih =>
      intro w q hq
      rw [List.foldl_cons] at hq
      rcases ih _ q hq with h | h
      · by_cases hd : done_ids.contains r.1
        · rw [if_pos hd] at h
          exact Or.inl h
        · rw [if_neg hd] at h
          rcases alSet_mem h with h' | h'
          · exact Or.inl h'
          · refine Or.inr ?_
            rw [h']
            exact Bool.eq_false_iff.mpr hd
      · exact Or.inr h

theorem leftoverFold_frozen (done_ids : List String) (t : String) :
    ∀ (pa : List (String × String × String)) (w : List (String × WorkInfo)),
      (∀ q ∈ pa, q.1 ≠ t) →
      alGet (pa.foldl (fun w q => if done_ids.contains q.1 then w
        else alSet w q.1 ⟨q.2.1, q.2.2, []⟩) w) t = alGet w t := by
  intro pa
  induction pa with
  | nil => intro w _; rfl
  | cons r rest ih =>
      intro w hno
      rw [List.foldl_cons]
      rw [ih _ (fun q hq => hno q (List.mem_cons_of_mem _ hq))]
      by_cases hd : done_ids.contains r.1
      · rw [if_pos hd]
      · rw [if_neg hd]
        exact alGet_alSet_ne _ _ _ _ (hno r (List.mem_cons_self _ _))

/-- C4: every ticket in the commit map is filed in exactly one place: its
commit lines land in `done_commits` when the ticket identifier is a
done/in-review identifier, and otherwise in the commits of a `worked_on`
(in-progress) entry — never both, never neither. -/
theorem c4_commit_ticket_filed_once (slug : String) (cbt : List (String × List String))
    (done_ids : List String) (pa lkp : List (String × String × String))
    (hnd : (cbt.map Prod.fst).Nodup) (hpand : (pa.map Prod.fst).Nodup)
    (t : String) (lines : List String) (hmem : (t, lines) ∈ cbt) :
    (done_ids.contains t = true →
      alGet (reconcile slug cbt done_ids pa lkp).done_commits t = some lines ∧
      alGet (reconcile slug cbt done_ids pa lkp).worked_on t = none) ∧
    (done_ids.contains t = false →
      alGet (reconcile slug cbt done_ids pa lkp).done_commits t = none ∧
      ∃ info : WorkInfo,
        alGet (reconcile slug cbt done_ids pa lkp).worked_on t = some info ∧
        info.commits = lines) := by
  constructor
  · intro hdone
    constructor
    · exact mergeFold_done_commits_get slug done_ids lkp cbt t lines hnd hmem hdone
        ⟨pa, [], []⟩
    · rw [alGet_eq_none_iff]
      intro q hq
      rcases leftoverFold_keys done_ids _ _ q hq with h | h
      · rcases mergeFold_worked_on_keys slug done_ids lkp cbt ⟨pa, [], []⟩ q h with h2 | h2
        · cases h2
        · intro hqt
          rw [hqt, hdone] at h2
          cases h2
      · intro hqt
        rw [hqt, hdone] at h
        cases h
  · intro hdone
    constructor
    · rw [alGet_eq_none_iff]
      intro q hq
      rcases mergeFold_done_commits_keys slug done_ids lkp cbt ⟨pa, [], []⟩ q hq with h | h
      · cases h
      · intro hqt
        rw [hqt, hdone] at h
        cases h
    · obtain ⟨⟨info, hget, hcm⟩, hnokey⟩ :=
        mergeFold_worked_on_get slug done_ids lkp cbt t lines hnd hmem hdone
          ⟨pa, [], []⟩ hpand
      exact ⟨info, (leftoverFold_frozen done_ids t _ _ hnokey).trans hget, hcm⟩

/-- Witness for C4 on a two-ticket commit map with one done identifier. -/
theorem c4_commit_ticket_filed_once_witness :
    (alGet (reconcile "ws" [("DATA-5", ["l5"]), ("DATA-6", ["l6"])]
        ["DATA-5"] [] []).done_commits "DATA-5" = some ["l5"] ∧
      alGet (reconcile "ws" [("DATA-5", ["l5"]), ("DATA-6", ["l6"])]
        ["DATA-5"] [] []).worked_on "DATA-5" = none) ∧
    (alGet (reconcile "ws" [("DATA-5", ["l5"]), ("DATA-6", ["l6"])]
        ["DATA-5"] [] []).done_commits "DATA-6" = none ∧
      ∃ info : WorkInfo,
        alGet (reconcile "ws" [("DATA-5", ["l5"]), ("DATA-6", ["l6"])]
          ["DATA-5"] [] []).worked_on "DATA-6" = some info ∧
        info.commits = ["l6"]) :=
  ⟨(c4_commit_ticket_filed_once "ws" [("DATA-5", ["l5"]), ("DATA-6", ["l6"])]
      ["DATA-5"] [] [] (by decide) (by decide) "DATA-5" ["l5"] (by decide)).1 (by decide),
   (c4_commit_ticket_filed_once "ws" [("DATA-5", ["l5"]), ("DATA-6", ["l6"])]
      ["DATA-5"] [] [] (by decide) (by decide) "DATA-6" ["l6"] (by decide)).2 (by decide)⟩

/-! ### Scan lemmas -/

theorem alSet_mem_eq {α : Type} {l : List (String × α)} {k : String} {v : α}
    {q : String × α} (hq : q ∈ alSet l k v) : q ∈ l ∨ q = (k, v) := by
  induction l with
  | nil =>
      rw [alSet, List.mem_singleton] at hq
      exact Or.inr hq
  | cons p t ih =>
      obtain ⟨a, w⟩ := p
      by_cases ha : a = k
      · subst ha
        rw [alSet, if_pos rfl, List.mem_cons] at hq
        rcases hq with h | h
        · exact Or.inr h
        · exact Or.inl (List.mem_cons_of_mem _ h)
      · rw [alSet, if_neg ha, List.mem_cons] at hq
        rcases hq with h | h
        · exact Or.inl (h ▸ List.mem_cons_self _ _)
        · rcases ih h with h' | h'
          · exact Or.inl (List.mem_cons_of_mem _ h')
          · exact Or.inr h'

theorem scanFold_skip_errors (repos : List (Except Unit (List Commit))) :
    ∀ st : ScanState, repos.foldl repoStep st = (keepOk repos).foldl repoStep st := by
  induction repos with
  | nil => intro st; rfl
  | cons r rest ih =>
      intro st
      cases r with
      | error e => simpa [keepOk, List.filterMap_cons, repoStep] using ih st
      | ok cs => simp [keepOk, List.filterMap_cons, repoStep, ih]

/-- C8: the source-control scan is error-tolerant: its result on any
repository list equals its result on the sublist of repositories whose
commit listing did not raise (failures are swallowed, the scan continues),
and with no source-control token it returns an empty ticket map and an empty
orphan list. -/
theorem c8_scan_swallow_failures (tok : String) (repos : List (Except Unit (List Commit))) :
    get_github_commits "" repos = ([], []) ∧
    get_github_commits tok repos = get_github_commits tok (keepOk repos) := by
  constructor
  · rfl
  · by_cases htok : tok = ""
    · rw [htok]
      rfl
    · unfold get_github_commits
      rw [if_neg htok, if_neg htok, scanFold_skip_errors repos ⟨[], []⟩]

theorem ticketFold_vals (short : String) (ts : List String) :
    ∀ bt : List (String × List String), (∀ p ∈ bt, p.2 = [short]) →
      ∀ p ∈ ts.foldl (fun bt tk =>
        match alGet bt (strUpper tk) with
        | some s => alSet bt (strUpper tk) (setAdd s short)
        | none => bt ++ [(strUpper tk, [short])]) bt, p.2 = [short] := by
  induction ts with
  | nil => intro bt h; exact h
  | cons tk rest ih =>
      intro bt h
      rw [List.foldl_cons]
      apply ih
      intro p hp
      cases hg : alGet bt (strUpper tk) with
      | some s =>
          rw [hg] at hp
          have hp' : p ∈ alSet bt (strUpper tk) (setAdd s short) := hp
          have hs : s = [short] := h _ (alGet_mem hg)
          have hone : setAdd [short] short = [short] := by simp [setAdd]
          rw [hs, hone] at hp'
          rcases alSet_mem_eq hp' with h' | h'
          · exact h p h'
          · rw [h']
      | none =>
          rw [hg] at hp
          have hp' : p ∈ bt ++ [(strUpper tk, [short])] := hp
          rcases List.mem_append.mp hp' with h' | h'
          · exact h p h'
          · rw [List.mem_singleton] at h'
            rw [h']

theorem ticketFold_keys_mono (short : String) (ts : List String) :
    ∀ (bt : List (String × List String)) (k : String), k ∈ bt.map Prod.fst →
      k ∈ (ts.foldl (fun bt tk =>
        match alGet bt (strUpper tk) with
        | some s => alSet bt (strUpper tk) (setAdd s short)
        | none => bt ++ [(strUpper tk, [short])]) bt).map Prod.fst := by
  induction ts with
  | nil => intro bt k h; exact h
  | cons tk rest ih =>
      intro bt k h
      rw [List.foldl_cons]
      apply ih
      cases hg : alGet bt (strUpper tk) with
      | some s => exact alSet_keys_mono h _ _
      | none =>
          rw [List.map_append, List.mem_append]
          exact Or.inl h

theorem ticketFold_key_mem (short : String) (ts : List String) (tk : String)
    (ht : tk ∈ ts) :
    ∀ bt : List (String × List String), strUpper tk ∈ (ts.foldl (fun bt tk =>
      match alGet bt (strUpper tk) with
      | some s => alSet bt (strUpper tk) (setAdd s short)
      | none => bt ++ [(strUpper tk, [short])]) bt).map Prod.fst := by
  induction ts with
  | nil => cases ht
  | cons a rest ih =>
      intro bt
      rw [List.mem_cons] at ht
      rw [List.foldl_cons]
      rcases ht with rfl | ht
      · apply ticketFold_keys_mono
        cases hg : alGet bt (strUpper tk) with
        | some s => exact alSet_key_mem _ _ _
        | none =>
            rw [List.map_append, List.mem_append]
            right
            simp
      · exact ih ht _

theorem ticketFold_keys_nodup (short : String) (ts : List String) :
    ∀ bt : List (String × List String), (bt.map Prod.fst).Nodup →
      ((ts.foldl (fun bt tk =>
        match alGet bt (strUpper tk) with
        | some s => alSet bt (strUpper tk) (setAdd s short)
        | none => bt ++ [(strUpper tk, [short])]) bt).map Prod.fst).Nodup := by
  induction ts with
  | nil => intro bt h; exact h
  | cons tk rest ih =>
      intro bt h
      rw [List.foldl_cons]
      apply ih
      cases hg : alGet bt (strUpper tk) with
      | some s => exact alSet_keys_nodup h _ _
      | none =>
          rw [List.map_append, List.nodup_append]
          refine ⟨h, by simp, ?_⟩
          intro x hx
          simp only [List.map_cons, List.map_nil, List.mem_singleton]
          intro hxk
          rcases List.mem_map.mp hx with ⟨p, hp, hfst⟩
          exact (alGet_eq_none_iff _ _).mp hg p hp (hfst.trans hxk)

theorem ticketFold_get (short : String) (ts : List String) (tk : String)
    (ht : tk ∈ ts) :
    ∀ bt : List (String × List String), (∀ p ∈ bt, p.2 = [short]) →
      alGet (ts.foldl (fun bt tk =>
        match alGet bt (strUpper tk) with
        | some s => alSet bt (strUpper tk) (setAdd s short)
        | none => bt ++ [(strUpper tk, [short])]) bt) (strUpper tk) = some [short] := by
  intro bt hv
  cases hg : alGet (ts.foldl (fun bt tk =>
      match alGet bt (strUpper tk) with
      | some s => alSet bt (strUpper tk) (setAdd s short)
      | none => bt ++ [(strUpper tk, [short])]) bt) (strUpper tk) with
  | none =>
      exfalso
      have hnone := (alGet_eq_none_iff _ _).mp hg
      have hk := ticketFold_key_mem short ts tk ht bt
      rcases List.mem_map.mp hk with ⟨p, hp, hfst⟩
      exact hnone p hp hfst
  | some v =>
      have hval : v = [short] := ticketFold_vals short ts bt hv _ (alGet_mem hg)
      rw [hval]

theorem map_fst_map_val {α β : Type} (g : α → β) (l : List (String × α)) :
    (l.map (fun p => (p.1, g p.2))).map Prod.fst = l.map Prod.fst := by
  induction l with
  | nil => rfl
  | cons p t ih => simp [ih]

/-- C7: a non-merge commit whose message references a ticket in lowercase
(e.g. `data-99`) with no matching tracker issue anywhere (not a done/in-review
identifier, not active, not in the issue lookup) yields an in-progress entry
keyed by the uppercased identifier, whose title is synthesized by
`title_from_commits` from the rendered commit line (the first message with
the ticket-plus-separator head stripped, `""` when none is non-empty) and
whose URL is the fallback browse link. -/
theorem c7_unmatched_ticket_synthesized (slug tok : String) (c : Commit) (t : String)
    (done_ids : List String) (pa lkp : List (String × String × String))
    (htok : tok ≠ "")
    (hmerge : isMergeMsg (firstLine c.message) = false)
    (ht : t ∈ findTickets (firstLine c.message))
    (hdone : done_ids.contains (strUpper t) = false)
    (hpa : ∀ p ∈ pa, p.1 ≠ strUpper t)
    (hlkp : alGet lkp (strUpper t) = none) :
    alGet (get_github_commits tok [Except.ok [c]]).1 (strUpper t)
      = some ["`" ++ strTake c.sha 7 ++ "` " ++ firstLine c.message
              ++ " (" ++ c.html_url ++ ")"] ∧
    alGet (reconcile slug (get_github_commits tok [Except.ok [c]]).1
        done_ids pa lkp).worked_on (strUpper t)
      = some ⟨title_from_commits (strUpper t)
              ["`" ++ strTake c.sha 7 ++ "` " ++ firstLine c.message
               ++ " (" ++ c.html_url ++ ")"],
            build_browse_url slug (strUpper t),
            ["`" ++ strTake c.sha 7 ++ "` " ++ firstLine c.message
             ++ " (" ++ c.html_url ++ ")"]⟩ := by
  set sh := "`" ++ strTake c.sha 7 ++ "` " ++ firstLine c.message
      ++ " (" ++ c.html_url ++ ")" with hsh
  have hproc : processCommit ⟨[], []⟩ c =
      ⟨(findTickets (firstLine c.message)).foldl (fun bt tk =>
          match alGet bt (strUpper tk) with
          | some s => alSet bt (strUpper tk) (setAdd s sh)
          | none => bt ++ [(strUpper tk, [sh])]) [], []⟩ := by
    have hts : (findTickets (firstLine c.message)).isEmpty = false := by
      cases hfts : findTickets (firstLine c.message) with
      | nil => rw [hfts] at ht; cases ht
      | cons a as => rfl
    simp only [processCommit, hmerge]
    rw [if_neg Bool.false_ne_true]
    simp only [hts]
    rw [if_neg Bool.false_ne_true]
  have hscan : get_github_commits tok [Except.ok [c]]
      = ((sortByKey (processCommit ⟨[], []⟩ c).by_ticket).map
          (fun p => (p.1, sortStrs p.2)),
         sortStrs (processCommit ⟨[], []⟩ c).orphans) := by
    unfold get_github_commits
    rw [if_neg htok]
    rfl
  have hnodup : (((findTickets (firstLine c.message)).foldl (fun bt tk =>
      match alGet bt (strUpper tk) with
      | some s => alSet bt (strUpper tk) (setAdd s sh)
      | none => bt ++ [(strUpper tk, [sh])]) []).map Prod.fst).Nodup :=
    ticketFold_keys_nodup sh _ [] (by simp)
  have hget : alGet ((findTickets (firstLine c.message)).foldl (fun bt tk =>
      match alGet bt (strUpper tk) with
      | some s => alSet bt (strUpper tk) (setAdd s sh)
      | none => bt ++ [(strUpper tk, [sh])]) []) (strUpper t) = some [sh] :=
    ticketFold_get sh _ t ht [] (by simp)
  have hc1 : alGet (get_github_commits tok [Except.ok [c]]).1 (strUpper t) = some [sh] := by
    rw [hscan, hproc]
    dsimp only
    rw [alGet_map_val sortStrs _ (strUpper t), alGet_sortByKey hnodup, hget]
    rfl
  have hnodup2 : ((get_github_commits tok [Except.ok [c]]).1.map Prod.fst).Nodup := by
    rw [hscan, hproc]
    dsimp only
    rw [map_fst_map_val]
    exact (((sortByKey_perm _).map Prod.fst).nodup_iff).mpr hnodup
  have hmemcbt : (strUpper t, [sh]) ∈ (get_github_commits tok [Except.ok [c]]).1 :=
    alGet_mem hc1
  obtain ⟨hw, hnk⟩ := mergeFold_worked_on_get_synth slug done_ids lkp _ (strUpper t) [sh]
      hnodup2 hmemcbt hdone hlkp ⟨pa, [], []⟩ hpa
  exact ⟨hc1, (leftoverFold_frozen done_ids (strUpper t) _ _ hnk).trans hw⟩

/-- Witness for C7: a commit `data-99 - Fix bug` with no matching issue
surfaces under `DATA-99` with synthesized title `Fix bug` and the fallback
browse link. -/
theorem c7_unmatched_ticket_synthesized_witness :
    alGet (reconcile "ws" (get_github_commits "tok"
        [Except.ok [⟨"abc1234def", "data-99 - Fix bug", "http://g/c1"⟩]]).1
        [] [] []).worked_on (strUpper "data-99")
      = some ⟨title_from_commits (strUpper "data-99")
              ["`" ++ strTake "abc1234def" 7 ++ "` " ++ firstLine "data-99 - Fix bug"
               ++ " (" ++ "http://g/c1" ++ ")"],
            build_browse_url "ws" (strUpper "data-99"),
            ["`" ++ strTake "abc1234def" 7 ++ "` " ++ firstLine "data-99 - Fix bug"
             ++ " (" ++ "http://g/c1" ++ ")"]⟩ ∧
    strUpper "data-99" = "DATA-99" ∧
    title_from_commits (strUpper "data-99")
        ["`" ++ strTake "abc1234def" 7 ++ "` " ++ firstLine "data-99 - Fix bug"
         ++ " (" ++ "http://g/c1" ++ ")"] = "Fix bug" ∧
    build_browse_url "ws" (strUpper "data-99") = "https://app.plane.so/ws/browse/DATA-99/" :=
  ⟨(c7_unmatched_ticket_synthesized "ws" "tok"
      ⟨"abc1234def", "data-99 - Fix bug", "http://g/c1"⟩ "data-99" [] [] []
      (by decide) (by decide) (by decide) (by decide) (by simp) rfl).2,
   by decide, by decide, by decide⟩

/-! ### Skeleton lemmas -/

theorem skel_append (a b : List String) : skel (a ++ b) = skel a ++ skel b :=
  List.filterMap_append a b skelLine

theorem skel_cons_some (l : String) (ls : List String) (x : SkelItem)
    (h : skelLine l = some x) : skel (l :: ls) = x :: skel ls := by
  unfold skel
  rw [List.filterMap_cons, h]

theorem skel_cons_none (l : String) (ls : List String)
    (h : skelLine l = none) : skel (l :: ls) = skel ls := by
  unfold skel
  rw [List.filterMap_cons, h]

theorem takeWhile_append_stop (p : Char → Bool) (xs rest : List Char)
    (hxs : ∀ c ∈ xs, p c = true)
    (hrest : rest = [] ∨ ∃ d ds, rest = d :: ds ∧ p d = false) :
    (xs ++ rest).takeWhile p = xs := by
  induction xs with
  | nil =>
      rcases hrest with rfl | ⟨d, ds, rfl, hd⟩
      · rfl
      · simp [List.takeWhile_cons, hd]
  | cons x xs ih =>
      have hx := hxs x (List.mem_cons_self _ _)
      simp only [List.cons_append, List.takeWhile_cons, hx, if_true]
      rw [ih (fun c hc => hxs c (List.mem_cons_of_mem _ hc))]

theorem dropWhile_append_all (p : Char → Bool) (xs rest : List Char)
    (hxs : ∀ c ∈ xs, p c = true) :
    (xs ++ rest).dropWhile p = rest.dropWhile p := by
  induction xs with
  | nil => rfl
  | cons x xs ih =>
      have hx := hxs x (List.mem_cons_self _ _)
      simp only [List.cons_append, List.dropWhile_cons, hx, if_true]
      exact ih (fun c hc => hxs c (List.mem_cons_of_mem _ hc))

theorem extractId_clean (id : String) (rest : List Char)
    (hid : cleanId id)
    (hrest : rest = [] ∨ rest.head? = some ' ') :
    extractId (id.data ++ rest) = id := by
  unfold extractId
  have hhead : ¬ (id.data ++ rest).head? = some '<' := by
    cases hd : id.data with
    | nil =>
        rcases hrest with rfl | hr
        · simp
        · cases rest with
          | nil => simp
          | cons r rs =>
              simp only [Option.some.injEq, List.head?_cons] at hr
              simp [hr]
    | cons c cs =>
        have hc := hid c (by rw [hd]; exact List.mem_cons_self _ _)
        simp [hc.2.1]
  rw [if_neg hhead]
  have htw : (id.data ++ rest).takeWhile (fun c => decide (c ≠ ' ')) = id.data := by
    refine takeWhile_append_stop _ _ _ (fun c hc => decide_eq_true (hid c hc).1) ?_
    rcases hrest with rfl | hr
    · exact Or.inl rfl
    · cases rest with
      | nil => exact Or.inl rfl
      | cons r rs =>
          simp only [List.head?_cons, Option.some.injEq] at hr
          exact Or.inr ⟨r, rs, rfl, by rw [hr]; rfl⟩
  rw [htw]

theorem extractId_link (id url : String) (rest : List Char)
    (hid : cleanId id) (hurl : cleanUrl url) :
    extractId ('<' :: (url.data ++ ('|' :: (id.data ++ ('>' :: rest))))) = id := by
  unfold extractId
  have hc0 : ('<' :: (url.data ++ ('|' :: (id.data ++ ('>' :: rest))))).head? = some '<' := rfl
  rw [if_pos hc0]
  have h1 : ('<' :: (url.data ++ ('|' :: (id.data ++ ('>' :: rest))))).dropWhile
      (fun c => decide (c ≠ '|')) = '|' :: (id.data ++ ('>' :: rest)) := by
    rw [List.dropWhile_cons]
    rw [if_pos (by decide)]
    rw [dropWhile_append_all _ _ _ (fun c hc => decide_eq_true ((hurl c hc).1))]
    rw [List.dropWhile_cons]
    rw [if_neg (by simp)]
  rw [h1]
  have h2 : ('|' :: (id.data ++ ('>' :: rest))).drop 1 = id.data ++ ('>' :: rest) := rfl
  rw [h2]
  have h3 : (id.data ++ ('>' :: rest)).takeWhile (fun c => decide (c ≠ '>')) = id.data := by
    refine takeWhile_append_stop _ _ _ (fun c hc => decide_eq_true (hid c hc).2.2.2) ?_
    exact Or.inr ⟨'>', rest, rfl, by decide⟩
  rw [h3]

theorem skelLine_bullet (rest : String) :
    skelLine ("• " ++ rest) = some (SkelItem.issue (extractId rest.data)) := rfl

theorem skelLine_issue_plain (add_links : Bool) (id title url suffix : String)
    (hid : cleanId id) (hsuf : suffix = "" ∨ suffix.data.head? = some ' ') :
    skelLine (issue_line_plain add_links id title url suffix) = some (SkelItem.issue id) := by
  have hassoc : issue_line_plain add_links id title url suffix
      = "• " ++ (id ++ ((if title ≠ "" then " — " ++ title else "") ++
          (suffix ++ (if add_links ∧ url ≠ "" then " " ++ url else "")))) := by
    unfold issue_line_plain
    rw [String.append_assoc, String.append_assoc, String.append_assoc]
  rw [hassoc, skelLine_bullet, String.data_append]
  rw [extractId_clean id _ hid ?_]
  by_cases ht : title ≠ ""
  · rw [if_pos ht]
    right
    simp [String.data_append]
  · rw [if_neg ht]
    rw [String.empty_append]
    rcases hsuf with hs | hs
    · subst hs
      rw [String.empty_append]
      by_cases hl : add_links ∧ url ≠ ""
      · rw [if_pos hl]
        right
        simp [String.data_append]
      · rw [if_neg hl]
        left
        rfl
    · right
      rw [String.data_append]
      cases hd : suffix.data with
      | nil => rw [hd] at hs; cases hs
      | cons d ds =>
          rw [hd] at hs
          simp only [List.head?_cons, Option.some.injEq] at hs
          simp [hs]

theorem skelLine_issue_slack (id title url suffix : String)
    (hid : cleanId id) (hurl : cleanUrl url)
    (hsuf : suffix = "" ∨ suffix.data.head? = some ' ') :
    skelLine (issue_line_slack id title url suffix) = some (SkelItem.issue id) := by
  have hrest : ((if title ≠ "" then " — " ++ title else "") ++ suffix : String).data = []
      ∨ ((if title ≠ "" then " — " ++ title else "") ++ suffix : String).data.head? = some ' ' := by
    by_cases ht : title ≠ ""
    · rw [if_pos ht]
      right
      simp [String.data_append]
    · rw [if_neg ht]
      rw [String.empty_append]
      rcases hsuf with hs | hs
      · subst hs
        left
        rfl
      · right
        exact hs
  by_cases hu : url ≠ ""
  · have hassoc : issue_line_slack id title url suffix
        = "• " ++ ("<" ++ (url ++ ("|" ++ (id ++ (">" ++
            ((if title ≠ "" then " — " ++ title else "") ++ suffix)))))) := by
      unfold issue_line_slack
      rw [if_pos hu]
      repeat rw [String.append_assoc]
    rw [hassoc, skelLine_bullet]
    have hdata : ("<" ++ (url ++ ("|" ++ (id ++ (">" ++
        ((if title ≠ "" then " — " ++ title else "") ++ suffix)))))).data
        = '<' :: (url.data ++ ('|' :: (id.data ++ ('>' ::
            ((if title ≠ "" then " — " ++ title else "") ++ suffix : String).data)))) := by
      simp [String.data_append]
    rw [hdata, extractId_link id url _ hid hurl]
  · have hassoc : issue_line_slack id title url suffix
        = "• " ++ (id ++ (((if title ≠ "" then " — " ++ title else "") ++ suffix))) := by
      unfold issue_line_slack
      rw [if_neg hu]
      repeat rw [String.append_assoc]
    rw [hassoc, skelLine_bullet, String.data_append]
    rw [extractId_clean id _ hid hrest]

theorem skel_render_commits_slack_none (cs : List String) :
    ∀ l ∈ _render_commits_slack cs, skelLine l = none := by
  intro l hl
  unfold _render_commits_slack at hl
  rcases List.mem_map.mp hl with ⟨p, hp, rfl⟩
  rfl

theorem skel_render_commits_plain_none (cs : List String) (add_links : Bool) :
    ∀ l ∈ _render_commits_plain cs add_links, skelLine l = none := by
  intro l hl
  unfold _render_commits_plain at hl
  rcases List.mem_map.mp hl with ⟨p, hp, rfl⟩
  by_cases ha : add_links = true
  · subst ha
    rfl
  · rw [Bool.eq_false_iff.mpr ha]
    rfl

theorem skelLine_ite_none {c : Prop} [Decidable c] (ls : List String)
    (h : ∀ l ∈ ls, skelLine l = none) :
    ∀ l ∈ (if c then ls else []), skelLine l = none := by
  intro l hl
  by_cases hc : c
  · rw [if_pos hc] at hl
    exact h l hl
  · rw [if_neg hc] at hl
    cases hl

theorem skel_flatMap_issue {α : Type} (ps : List α) (line : α → String)
    (extra : α → List String) (idOf : α → String)
    (hline : ∀ p ∈ ps, skelLine (line p) = some (SkelItem.issue (idOf p)))
    (hextra : ∀ p ∈ ps, ∀ l ∈ extra p, skelLine l = none) :
    skel (ps.flatMap (fun p => line p :: extra p))
      = ps.map (fun p => SkelItem.issue (idOf p)) := by
  induction ps with
  | nil => rfl
  | cons p ps ih =>
      rw [List.flatMap_cons, skel_append,
        skel_cons_some _ _ _ (hline p (List.mem_cons_self _ _))]
      have hnone : skel (extra p) = [] := by
        unfold skel
        exact List.filterMap_eq_nil_iff.mpr (hextra p (List.mem_cons_self _ _))
      rw [hnone, ih (fun q hq => hline q (List.mem_cons_of_mem _ hq))
          (fun q hq => hextra q (List.mem_cons_of_mem _ hq)), List.map_cons]
      rfl

theorem skel_map_issue {α : Type} (ps : List α) (line : α → String) (idOf : α → String)
    (hline : ∀ p ∈ ps, skelLine (line p) = some (SkelItem.issue (idOf p))) :
    skel (ps.map line) = ps.map (fun p => SkelItem.issue (idOf p)) := by
  induction ps with
  | nil => rfl
  | cons p ps ih =>
      rw [List.map_cons, skel_cons_some _ _ _ (hline p (List.mem_cons_self _ _)),
        ih (fun q hq => hline q (List.mem_cons_of_mem _ hq)), List.map_cons]

/-- C5 (amended): for a reconciled state (every commit-map ticket is either a
`worked_on` key or a done/in-review identifier) whose backlog bucket is
empty, and whose identifiers and URLs are free of markup metacharacters, the
plain-text rendering and the chat rendering have the same skeleton: the same
section headers (after stripping bold markers) and the same issue identifiers
in the same order and number per section. -/
theorem c5_skeletons_agree_when_backlog_empty
    (done_issues review_issues blocked_issues : List (String × String × String))
    (worked_on : List (String × WorkInfo))
    (commits_by_ticket done_commits : List (String × List String))
    (orphan_commits : List String) (todayStr : String) (add_links : Bool)
    (show_commits : List String)
    (hrec : ∀ tk ∈ commits_by_ticket.map Prod.fst,
        alHas worked_on tk = true ∨ (doneIds done_issues review_issues).contains tk = true)
    (hwf : ∀ p ∈ done_issues ++ review_issues ++ blocked_issues,
        cleanId p.1 ∧ cleanUrl p.2.2)
    (hwfw : ∀ q ∈ worked_on, cleanId q.1 ∧ cleanUrl q.2.url) :
    skel (build_report done_issues review_issues worked_on blocked_issues todayStr
        add_links show_commits done_commits orphan_commits)
      = skel (build_slack_report done_issues review_issues worked_on blocked_issues []
          commits_by_ticket orphan_commits todayStr show_commits done_commits) := by
  have hwf_done : ∀ p ∈ done_issues, cleanId p.1 := fun p hp =>
    (hwf p (List.mem_append_left _ (List.mem_append_left _ hp))).1
  have hwf_done_u : ∀ p ∈ done_issues, cleanUrl p.2.2 := fun p hp =>
    (hwf p (List.mem_append_left _ (List.mem_append_left _ hp))).2
  have hwf_rev : ∀ p ∈ review_issues, cleanId p.1 := fun p hp =>
    (hwf p (List.mem_append_left _ (List.mem_append_right _ hp))).1
  have hwf_rev_u : ∀ p ∈ review_issues, cleanUrl p.2.2 := fun p hp =>
    (hwf p (List.mem_append_left _ (List.mem_append_right _ hp))).2
  have hwf_blk : ∀ p ∈ blocked_issues, cleanId p.1 := fun p hp =>
    (hwf p (List.mem_append_right _ hp)).1
  have hwf_blk_u : ∀ p ∈ blocked_issues, cleanUrl p.2.2 := fun p hp =>
    (hwf p (List.mem_append_right _ hp)).2
  have hwf_w : ∀ q ∈ sortByKey worked_on, cleanId q.1 ∧ cleanUrl q.2.url := fun q hq =>
    hwfw q ((sortByKey_perm worked_on).mem_iff.mp hq)
  -- chunk values shared by the two renderings
  have hD_p : skel (if done_issues ≠ [] then
        done_issues.flatMap (fun p =>
          issue_line_plain add_links p.1 p.2.1 p.2.2 "" ::
          (if show_commits.contains "done"
           then _render_commits_plain ((alGet done_commits p.1).getD []) add_links
           else []))
      else ["• —"])
      = (if done_issues ≠ [] then done_issues.map (fun p => SkelItem.issue p.1)
         else [SkelItem.issue "—"]) := by
    by_cases hd : done_issues ≠ []
    · rw [if_pos hd, if_pos hd]
      exact skel_flatMap_issue _ _ _ _
        (fun p hp => skelLine_issue_plain add_links p.1 p.2.1 p.2.2 ""
          (hwf_done p hp) (Or.inl rfl))
        (fun p hp => skelLine_ite_none _ (skel_render_commits_plain_none _ _))
    · rw [if_neg hd, if_neg hd]
      rfl
  have hD_s : skel (if done_issues ≠ [] then
        done_issues.flatMap (fun p =>
          issue_line_slack p.1 p.2.1 p.2.2 "" ::
          (if show_commits.contains "done"
           then _render_commits_slack ((alGet done_commits p.1).getD [])
           else []))
      else ["• —"])
      = (if done_issues ≠ [] then done_issues.map (fun p => SkelItem.issue p.1)
         else [SkelItem.issue "—"]) := by
    by_cases hd : done_issues ≠ []
    · rw [if_pos hd, if_pos hd]
      exact skel_flatMap_issue _ _ _ _
        (fun p hp => skelLine_issue_slack p.1 p.2.1 p.2.2 ""
          (hwf_done p hp) (hwf_done_u p hp) (Or.inl rfl))
        (fun p hp => skelLine_ite_none _ (skel_render_commits_slack_none _))
    · rw [if_neg hd, if_neg hd]
      rfl
  have hR_p : skel (if review_issues ≠ [] then
        ["", SEC_REVIEW] ++ review_issues.flatMap (fun p =>
          issue_line_plain add_links p.1 p.2.1 p.2.2 "" ::
          (if show_commits.contains "done"
           then _render_commits_plain ((alGet done_commits p.1).getD []) add_links
           else []))
      else [])
      = (if review_issues ≠ [] then
          SkelItem.header SEC_REVIEW :: review_issues.map (fun p => SkelItem.issue p.1)
         else []) := by
    by_cases hr : review_issues ≠ []
    · rw [if_pos hr, if_pos hr, skel_append,
        show skel ["", SEC_REVIEW] = [SkelItem.header SEC_REVIEW] from rfl,
        skel_flatMap_issue _ _ _ _
          (fun p hp => skelLine_issue_plain add_links p.1 p.2.1 p.2.2 ""
            (hwf_rev p hp) (Or.inl rfl))
          (fun p hp => skelLine_ite_none _ (skel_render_commits_plain_none _ _))]
      rfl
    · rw [if_neg hr, if_neg hr]
      rfl
  have hR_s : skel (if review_issues ≠ [] then
        ["", bold SEC_REVIEW] ++ review_issues.flatMap (fun p =>
          issue_line_slack p.1 p.2.1 p.2.2 "" ::
          (if show_commits.contains "done"
           then _render_commits_slack ((alGet done_commits p.1).getD [])
           else []))
      else [])
      = (if review_issues ≠ [] then
          SkelItem.header SEC_REVIEW :: review_issues.map (fun p => SkelItem.issue p.1)
         else []) := by
    by_cases hr : review_issues ≠ []
    · rw [if_pos hr, if_pos hr, skel_append,
        show skel ["", bold SEC_REVIEW] = [SkelItem.header SEC_REVIEW] from rfl,
        skel_flatMap_issue _ _ _ _
          (fun p hp => skelLine_issue_slack p.1 p.2.1 p.2.2 ""
            (hwf_rev p hp) (hwf_rev_u p hp) (Or.inl rfl))
          (fun p hp => skelLine_ite_none _ (skel_render_commits_slack_none _))]
      rfl
    · rw [if_neg hr, if_neg hr]
      rfl
  have hW_p : skel (if worked_on ≠ [] then
        (sortByKey worked_on).flatMap (fun p =>
          issue_line_plain add_links p.1 p.2.title p.2.url "" ::
          (if show_commits.contains "in_progress"
           then _render_commits_plain p.2.commits add_links
           else []))
      else ["• —"])
      = (if worked_on ≠ [] then
          (sortByKey worked_on).map (fun p => SkelItem.issue p.1)
         else [SkelItem.issue "—"]) := by
    by_cases hw : worked_on ≠ []
    · rw [if_pos hw, if_pos hw]
      exact skel_flatMap_issue _ _ _ _
        (fun p hp => skelLine_issue_plain add_links p.1 p.2.title p.2.url ""
          (hwf_w p hp).1 (Or.inl rfl))
        (fun p hp => skelLine_ite_none _ (skel_render_commits_plain_none _ _))
    · rw [if_neg hw, if_neg hw]
      rfl
  have hW_s : skel (if worked_on ≠ [] then
        (sortByKey worked_on).flatMap (fun p =>
          issue_line_slack p.1 p.2.title p.2.url "" ::
          (if show_commits.contains "in_progress"
           then _render_commits_slack p.2.commits
           else []))
      else ["• —"])
      = (if worked_on ≠ [] then
          (sortByKey worked_on).map (fun p => SkelItem.issue p.1)
         else [SkelItem.issue "—"]) := by
    by_cases hw : worked_on ≠ []
    · rw [if_pos hw, if_pos hw]
      exact skel_flatMap_issue _ _ _ _
        (fun p hp => skelLine_issue_slack p.1 p.2.title p.2.url ""
          (hwf_w p hp).1 (hwf_w p hp).2 (Or.inl rfl))
        (fun p hp => skelLine_ite_none _ (skel_render_commits_slack_none _))
    · rw [if_neg hw, if_neg hw]
      rfl
  have hO_p : skel (if show_commits.contains "orphan" = true ∧ orphan_commits ≠ [] then
        ["", SEC_ORPHAN_COMMITS] ++ _render_commits_plain orphan_commits add_links
      else [])
      = (if show_commits.contains "orphan" = true ∧ orphan_commits ≠ [] then
          [SkelItem.header SEC_ORPHAN_COMMITS] else []) := by
    by_cases ho : show_commits.contains "orphan" = true ∧ orphan_commits ≠ []
    · rw [if_pos ho, if_pos ho, skel_append,
        show skel ["", SEC_ORPHAN_COMMITS] = [SkelItem.header SEC_ORPHAN_COMMITS] from rfl]
      have hnone : skel (_render_commits_plain orphan_commits add_links) = [] := by
        unfold skel
        exact List.filterMap_eq_nil_iff.mpr (skel_render_commits_plain_none _ _)
      rw [hnone, List.append_nil]
    · rw [if_neg ho, if_neg ho]
      rfl
  have hO_s : skel (if show_commits.contains "orphan" = true ∧ orphan_commits ≠ [] then
        ["", bold SEC_ORPHAN_COMMITS] ++ _render_commits_slack orphan_commits
      else [])
      = (if show_commits.contains "orphan" = true ∧ orphan_commits ≠ [] then
          [SkelItem.header SEC_ORPHAN_COMMITS] else []) := by
    by_cases ho : show_commits.contains "orphan" = true ∧ orphan_commits ≠ []
    · rw [if_pos ho, if_pos ho, skel_append,
        show skel ["", bold SEC_ORPHAN_COMMITS] = [SkelItem.header SEC_ORPHAN_COMMITS] from rfl]
      have hnone : skel (_render_commits_slack orphan_commits) = [] := by
        unfold skel
        exact List.filterMap_eq_nil_iff.mpr (skel_render_commits_slack_none _)
      rw [hnone, List.append_nil]
    · rw [if_neg ho, if_neg ho]
      rfl
  have hB_p : skel (if blocked_issues ≠ [] then
        blocked_issues.map (fun p => issue_line_plain add_links p.1 p.2.1 p.2.2 " blocked")
      else ["• No"])
      = (if blocked_issues ≠ [] then blocked_issues.map (fun p => SkelItem.issue p.1)
         else [SkelItem.issue "No"]) := by
    by_cases hb : blocked_issues ≠ []
    · rw [if_pos hb, if_pos hb]
      exact skel_map_issue _ _ _
        (fun p hp => skelLine_issue_plain add_links p.1 p.2.1 p.2.2 " blocked"
          (hwf_blk p hp) (Or.inr rfl))
    · rw [if_neg hb, if_neg hb]
      rfl
  have hB_s : skel (if blocked_issues ≠ [] then
        blocked_issues.map (fun p => issue_line_slack p.1 p.2.1 p.2.2 " — blocked")
      else ["• No"])
      = (if blocked_issues ≠ [] then blocked_issues.map (fun p => SkelItem.issue p.1)
         else [SkelItem.issue "No"]) := by
    by_cases hb : blocked_issues ≠ []
    · rw [if_pos hb, if_pos hb]
      exact skel_map_issue _ _ _
        (fun p hp => skelLine_issue_slack p.1 p.2.1 p.2.2 " — blocked"
          (hwf_blk p hp) (hwf_blk_u p hp) (Or.inr rfl))
    · rw [if_neg hb, if_neg hb]
      rfl
  have hU_s : (if show_commits.contains "in_progress" then
        (let done_ids := doneIds done_issues review_issues
         let orphan_tickets := sortStrs ((commits_by_ticket.map Prod.fst).filter
           (fun tk => !(alHas worked_on tk) && !(done_ids.contains tk)))
         if orphan_tickets ≠ [] then
           ["", bold SEC_UNKNOWN_TICKETS]
           ++ orphan_tickets.flatMap (fun tk =>
                (_render_commits_slack ((alGet commits_by_ticket tk).getD [])).map
                  (fun line => "  " ++ tk ++ ":" ++ (⟨line.data.dropWhile isSpaceChar⟩ : String)))
         else [])
      else []) = ([] : List String) := by
    have hfilter : (commits_by_ticket.map Prod.fst).filter
        (fun tk => !(alHas worked_on tk)
          && !((doneIds done_issues review_issues).contains tk)) = [] := by
      rw [List.filter_eq_nil_iff]
      intro tk htk
      rcases hrec tk htk with h | h
      · rw [h, Bool.not_true, Bool.false_and]
        exact Bool.false_ne_true
      · rw [h, Bool.not_true, Bool.and_false]
        exact Bool.false_ne_true
    by_cases hip : show_commits.contains "in_progress" = true
    · rw [if_pos hip]
      simp only [hfilter]
      rfl
    · rw [if_neg hip]
  rw [build_report, build_slack_report]
  simp only [skel_append]
  rw [hD_p, hD_s, hR_p, hR_s, hW_p, hW_s, hO_p, hO_s, hB_p, hB_s, hU_s]
  rw [show skel ["Daily standup — " ++ todayStr, ""] = [] from rfl]
  rw [show skel ["*Daily standup — " ++ todayStr ++ "*", ""] = [] from rfl]
  rw [show (if ([] : List (String × String × String)) ≠ [] then
      ["", "---", bold SEC_BACKLOG]
      ++ (sortTriples ([] : List (String × String × String))).map
          (fun p => issue_line_slack p.1 p.2.1 p.2.2 "") else []) = ([] : List String)
      from by rw [if_neg (by simp)]]
  simp only [show skel [SEC_DONE] = [SkelItem.header SEC_DONE] from rfl,
    show skel [bold SEC_DONE] = [SkelItem.header SEC_DONE] from rfl,
    show skel ["", SEC_IN_PROGRESS] = [SkelItem.header SEC_IN_PROGRESS] from rfl,
    show skel ["", bold SEC_IN_PROGRESS] = [SkelItem.header SEC_IN_PROGRESS] from rfl,
    show skel ["", SEC_BLOCKED] = [SkelItem.header SEC_BLOCKED] from rfl,
    show skel ["", bold SEC_BLOCKED] = [SkelItem.header SEC_BLOCKED] from rfl,
    show skel ["", SEC_NEED_TASKS] = [SkelItem.header SEC_NEED_TASKS] from rfl,
    show skel ["", bold SEC_NEED_TASKS] = [SkelItem.header SEC_NEED_TASKS] from rfl,
    show skel ["• Need tasks: no"] = [SkelItem.issue "Need"] from rfl,
    show skel ([] : List String) = [] from rfl]
  simp [List.append_assoc]

/-- Witness for the amended C5 at a concrete reconciled state. -/
theorem c5_skeletons_agree_when_backlog_empty_witness :
    skel (build_report [("DATA-10", "Done thing", "http://p/10")] []
        [("DATA-12", ⟨"WIP", "http://p/12", ["x"]⟩)] [] "2024-01-09" false
        ["in_progress"] [] [])
      = skel (build_slack_report [("DATA-10", "Done thing", "http://p/10")] []
          [("DATA-12", ⟨"WIP", "http://p/12", ["x"]⟩)] [] []
          [("DATA-12", ["x"])] [] "2024-01-09" ["in_progress"] []) :=
  c5_skeletons_agree_when_backlog_empty
    [("DATA-10", "Done thing", "http://p/10")] [] []
    [("DATA-12", ⟨"WIP", "http://p/12", ["x"]⟩)]
    [("DATA-12", ["x"])] [] [] "2024-01-09" false ["in_progress"]
    (by decide) (by decide) (by decide)

/-- C5 counterexample: with a non-empty backlog bucket the chat rendering has
a whole extra (chat-only) backlog section, so the two skeletons differ: the
original round-trip claim quantifies over every reconciled state, including
those with backlog issues. -/
theorem c5_backlog_breaks_roundtrip :
    skel (build_report [] [] [] [] "2024-01-09" false [] [] [])
      ≠ skel (build_slack_report [] [] [] [] [("B-1", "t", "")] [] [] "2024-01-09" [] []) := by
  decide

/-! ### Membership helpers for C9 -/

theorem forall_mem_append {P : String → Prop} {a b : List String}
    (ha : ∀ l ∈ a, P l) (hb : ∀ l ∈ b, P l) : ∀ l ∈ a ++ b, P l := by
  intro l hl
  rcases List.mem_append.mp hl with h | h
  exacts [ha l h, hb l h]

theorem forall_mem_ite {P : String → Prop} {c : Prop} [Decidable c] {a b : List String}
    (ha : ∀ l ∈ a, P l) (hb : ∀ l ∈ b, P l) : ∀ l ∈ (if c then a else b), P l := by
  intro l hl
  by_cases hc : c
  · rw [if_pos hc] at hl
    exact ha l hl
  · rw [if_neg hc] at hl
    exact hb l hl

theorem forall_mem_flatMap {α : Type} {P : String → Prop} {ps : List α}
    {f : α → List String} (h : ∀ p ∈ ps, ∀ l ∈ f p, P l) :
    ∀ l ∈ ps.flatMap f, P l := by
  intro l hl
  rcases List.mem_flatMap.mp hl with ⟨p, hp, hlp⟩
  exact h p hp l hlp

theorem forall_mem_map {α : Type} {P : String → Prop} {ps : List α}
    {f : α → String} (h : ∀ p ∈ ps, P (f p)) :
    ∀ l ∈ ps.map f, P l := by
  intro l hl
  rcases List.mem_map.mp hl with ⟨p, hp, rfl⟩
  exact h p hp

theorem forall_mem_cons {P : String → Prop} {x : String} {xs : List String}
    (hx : P x) (hxs : ∀ l ∈ xs, P l) : ∀ l ∈ x :: xs, P l := by
  intro l hl
  rcases List.mem_cons.mp hl with rfl | h
  exacts [hx, hxs l h]

theorem forall_mem_nil {P : String → Prop} : ∀ l ∈ ([] : List String), P l := by
  intro l hl
  cases hl

theorem skelLine_issue_slack_shape (i t u s : String) :
    ∃ x, skelLine (issue_line_slack i t u s) = some (SkelItem.issue x) := ⟨_, rfl⟩

theorem mergeFold_worked_on_keys_mono (slug : String) (done_ids : List String)
    (lkp : List (String × String × String)) (cbt : List (String × List String)) :
    ∀ (st : MergeState) (k : String), k ∈ st.worked_on.map Prod.fst →
      k ∈ (cbt.foldl (mergeStep slug done_ids lkp) st).worked_on.map Prod.fst := by
  induction cbt with
  | nil => intro st k h; exact h
  | cons p rest ih =>
      intro st k h
      rw [List.foldl_cons]
      apply ih
      unfold mergeStep
      by_cases hd : done_ids.contains p.1
      · rw [if_pos hd]
        exact h
      · rw [if_neg hd]
        exact alSet_keys_mono h _ _

theorem leftoverFold_keys_mono (done_ids : List String) :
    ∀ (pa : List (String × String × String)) (w : List (String × WorkInfo)) (k : String),
      k ∈ w.map Prod.fst →
      k ∈ (pa.foldl (fun w q => if done_ids.contains q.1 then w
        else alSet w q.1 ⟨q.2.1, q.2.2, []⟩) w).map Prod.fst := by
  intro pa
  induction pa with
  | nil => intro w k h; exact h
  | cons r rest ih =>
      intro w k h
      rw [List.foldl_cons]
      apply ih
      by_cases hd : done_ids.contains r.1
      · rw [if_pos hd]
        exact h
      · rw [if_neg hd]
        exact alSet_keys_mono h _ _

theorem mergeFold_covers (slug : String) (done_ids : List String)
    (lkp : List (String × String × String)) (cbt : List (String × List String)) :
    ∀ (st : MergeState) (tk : String), tk ∈ cbt.map Prod.fst →
      done_ids.contains tk = true ∨
      tk ∈ (cbt.foldl (mergeStep slug done_ids lkp) st).worked_on.map Prod.fst := by
  induction cbt with
  | nil => intro st tk h; cases h
  | cons p rest ih =>
      intro st tk h
      rw [List.map_cons, List.mem_cons] at h
      rw [List.foldl_cons]
      rcases h with rfl | h
      · by_cases hd : done_ids.contains p.1
        · exact Or.inl hd
        · refine Or.inr ?_
          apply mergeFold_worked_on_keys_mono
          unfold mergeStep
          rw [if_neg hd]
          exact alSet_key_mem _ _ _
      · exact ih _ tk h

theorem alHas_of_key_mem {α : Type} {l : List (String × α)} {k : String}
    (h : k ∈ l.map Prod.fst) : alHas l k = true := by
  unfold alHas
  cases hg : alGet l k with
  | some v => rfl
  | none =>
      exfalso
      rcases List.mem_map.mp h with ⟨p, hp, hfst⟩
      exact (alGet_eq_none_iff _ _).mp hg p hp hfst

/-- C9: in any run, every commit-map ticket ends up either among the
`worked_on` keys or among the done/in-review identifiers, so the set of
unknown tickets computed at render time is empty and the chat rendering
never emits the "unknown tickets" section header. -/
theorem c9_unknown_ticket_section_never_emitted (slug todayStr : String)
    (done_issues review_issues blocked_issues backlog_issues : List (String × String × String))
    (pa lkp : List (String × String × String))
    (cbt : List (String × List String)) (orphan_commits : List String)
    (show_commits : List String) (done_commits : List (String × List String)) :
    (cbt.map Prod.fst).filter (fun tk =>
        !(alHas (reconcile slug cbt (doneIds done_issues review_issues) pa lkp).worked_on tk)
        && !((doneIds done_issues review_issues).contains tk)) = [] ∧
    SkelItem.header SEC_UNKNOWN_TICKETS ∉ skel (build_slack_report done_issues review_issues
      (reconcile slug cbt (doneIds done_issues review_issues) pa lkp).worked_on
      blocked_issues backlog_issues cbt orphan_commits todayStr show_commits done_commits) := by
  have hcov : ∀ tk ∈ cbt.map Prod.fst,
      alHas (reconcile slug cbt (doneIds done_issues review_issues) pa lkp).worked_on tk = true
      ∨ (doneIds done_issues review_issues).contains tk = true := by
    intro tk htk
    rcases mergeFold_covers slug (doneIds done_issues review_issues) lkp cbt
        ⟨pa, [], []⟩ tk htk with h | h
    · exact Or.inr h
    · exact Or.inl (alHas_of_key_mem
        (leftoverFold_keys_mono (doneIds done_issues review_issues) _ _ tk h))
  have hfil : (cbt.map Prod.fst).filter (fun tk =>
      !(alHas (reconcile slug cbt (doneIds done_issues review_issues) pa lkp).worked_on tk)
      && !((doneIds done_issues review_issues).contains tk)) = [] := by
    rw [List.filter_eq_nil_iff]
    intro tk htk
    rcases hcov tk htk with h | h
    · rw [h, Bool.not_true, Bool.false_and]
      exact Bool.false_ne_true
    · rw [h, Bool.not_true, Bool.and_false]
      exact Bool.false_ne_true
  refine ⟨hfil, ?_⟩
  have Pn : ∀ (l : String), skelLine l = none →
      skelLine l ≠ some (SkelItem.header SEC_UNKNOWN_TICKETS) := by
    intro l h
    rw [h]
    simp
  have Pi : ∀ (l : String) (x : String), skelLine l = some (SkelItem.issue x) →
      skelLine l ≠ some (SkelItem.header SEC_UNKNOWN_TICKETS) := by
    intro l x h
    rw [h]
    simp
  have Pline : ∀ (i t u s : String),
      skelLine (issue_line_slack i t u s) ≠ some (SkelItem.header SEC_UNKNOWN_TICKETS) := by
    intro i t u s
    obtain ⟨x, hx⟩ := skelLine_issue_slack_shape i t u s
    exact Pi _ x hx
  have Pcommits : ∀ (cs : List String) (l : String), l ∈ _render_commits_slack cs →
      skelLine l ≠ some (SkelItem.header SEC_UNKNOWN_TICKETS) :=
    fun cs l hl => Pn l (skel_render_commits_slack_none cs l hl)
  have hall : ∀ l ∈ build_slack_report done_issues review_issues
      (reconcile slug cbt (doneIds done_issues review_issues) pa lkp).worked_on
      blocked_issues backlog_issues cbt orphan_commits todayStr show_commits done_commits,
      skelLine l ≠ some (SkelItem.header SEC_UNKNOWN_TICKETS) := by
    unfold build_slack_report
    have hU : (if show_commits.contains "in_progress" = true then
        (let done_ids := doneIds done_issues review_issues
         let orphan_tickets := sortStrs ((cbt.map Prod.fst).filter
           (fun tk => !(alHas (reconcile slug cbt (doneIds done_issues review_issues)
               pa lkp).worked_on tk) && !(done_ids.contains tk)))
         if orphan_tickets ≠ [] then
           ["", bold SEC_UNKNOWN_TICKETS]
           ++ orphan_tickets.flatMap (fun tk =>
                (_render_commits_slack ((alGet cbt tk).getD [])).map
                  (fun line => "  " ++ tk ++ ":" ++ (⟨line.data.dropWhile isSpaceChar⟩ : String)))
         else [])
        else []) = ([] : List String) := by
      by_cases hip : show_commits.contains "in_progress" = true
      · rw [if_pos hip]
        simp only [hfil]
        rfl
      · rw [if_neg hip]
    rw [hU]
    refine forall_mem_append (forall_mem_append (forall_mem_append (forall_mem_append
      (forall_mem_append (forall_mem_append (forall_mem_append (forall_mem_append
      (forall_mem_append (forall_mem_append (forall_mem_append (forall_mem_append
      ?_ ?_) ?_) ?_) ?_) ?_) ?_) ?_) ?_) ?_) ?_) ?_) ?_
    · exact forall_mem_cons (Pn _ rfl) (forall_mem_cons (Pn _ rfl) forall_mem_nil)
    · exact forall_mem_cons (by decide) forall_mem_nil
    · exact forall_mem_ite
        (forall_mem_flatMap (fun p hp => forall_mem_cons (Pline p.1 p.2.1 p.2.2 "")
          (forall_mem_ite (fun l hl => Pcommits _ l hl) forall_mem_nil)))
        (forall_mem_cons (by decide) forall_mem_nil)
    · exact forall_mem_ite
        (forall_mem_append
          (forall_mem_cons (by decide) (forall_mem_cons (by decide) forall_mem_nil))
          (forall_mem_flatMap (fun p hp => forall_mem_cons (Pline p.1 p.2.1 p.2.2 "")
            (forall_mem_ite (fun l hl => Pcommits _ l hl) forall_mem_nil))))
        forall_mem_nil
    · exact forall_mem_cons (by decide) (forall_mem_cons (by decide) forall_mem_nil)
    · exact forall_mem_ite
        (forall_mem_flatMap (fun p hp => forall_mem_cons (Pline p.1 p.2.title p.2.url "")
          (forall_mem_ite (fun l hl => Pcommits _ l hl) forall_mem_nil)))
        (forall_mem_cons (by decide) forall_mem_nil)
    · exact forall_mem_nil
    · exact forall_mem_ite
        (forall_mem_append
          (forall_mem_cons (by decide) (forall_mem_cons (by decide) forall_mem_nil))
          (fun l hl => Pcommits _ l hl))
        forall_mem_nil
    · exact forall_mem_cons (by decide) (forall_mem_cons (by decide) forall_mem_nil)
    · exact forall_mem_ite
        (forall_mem_map (fun p hp => Pline p.1 p.2.1 p.2.2 " — blocked"))
        (forall_mem_cons (by decide) forall_mem_nil)
    · exact forall_mem_cons (by decide) (forall_mem_cons (by decide) forall_mem_nil)
    · exact forall_mem_cons (by decide) forall_mem_nil
    · exact forall_mem_ite
        (forall_mem_append
          (forall_mem_cons (by decide) (forall_mem_cons (by decide)
            (forall_mem_cons (by decide) forall_mem_nil)))
          (forall_mem_map (fun p hp => Pline p.1 p.2.1 p.2.2 "")))
        forall_mem_nil
  intro hmem
  unfold skel at hmem
  rcases List.mem_filterMap.mp hmem with ⟨l, hl, hsl⟩
  exact hall l hl hsl
